import Mathlib

/-!
Verification of the patch similarity and classification engine of the
LDPatch repository (`relibrary/core/patch/`).  The Python sources are
shallowly embedded: patch texts are lists of lines (`List String`),
scores are exact rationals (`ℚ`), Python `set`s are `Finset`s, Python
dicts with insertion order are association lists.  The md5 fingerprint is
modelled by the joined normalized text itself (hash equality stands for
equality of the joined text, i.e. md5 is treated as collision free), and
`difflib.SequenceMatcher.ratio` is modelled through an oracle parameter
`mlen` giving the total size of the matching blocks, so that
`ratio a b = 2 * mlen a b / (len a + len b)` with difflib's convention
that the ratio of two empty strings is 1.
-/

set_option maxRecDepth 8000

namespace LDPatch

/-! ### Python string primitives -/

/-- Python `s.startswith(p)`, on the character lists. -/
def pyStartsWith (s p : String) : Bool := p.data.isPrefixOf s.data

/-- Python slice `s[:n]`. -/
def pyTake (s : String) (n : Nat) : String := String.mk (s.data.take n)

/-- Python slice `s[n:]`. -/
def pyDrop (s : String) (n : Nat) : String := String.mk (s.data.drop n)

/-- Python `sep.join(l)`. -/
def pyJoin (sep : String) : List String → String
  | [] => ""
  | [x] => x
  | x :: y :: rest => x ++ sep ++ pyJoin sep (y :: rest)

/-- ASCII whitespace, the characters stripped and split on by Python's
`str.strip()`/`str.split()` (the patches contain no exotic Unicode spaces). -/
def isSpc (c : Char) : Bool :=
  c = ' ' || c = '\t' || c = '\n' || c = '\r' || c = '\x0b' || c = '\x0c'

/-- Python `s.strip()` with no argument. -/
def pyTrim (s : String) : String :=
  String.mk (((s.data.dropWhile isSpc).reverse.dropWhile isSpc).reverse)

/-- Python `s.replace('\r', '')`: remove every carriage return. -/
def pyRemCR (s : String) : String :=
  String.mk (s.data.filter (fun c => c ≠ '\r'))

/-- Accumulating scanner for `pySplitWs`. -/
def wsSplitChars : List Char → List Char → List String
  | [], cur => if cur.isEmpty then [] else [String.mk cur.reverse]
  | c :: rest, cur =>
    if isSpc c then
      (if cur.isEmpty then [] else [String.mk cur.reverse]) ++ wsSplitChars rest []
    else wsSplitChars rest (c :: cur)

/-- Python `s.split()` with no argument: split on whitespace runs, dropping empties. -/
def pySplitWs (s : String) : List String := wsSplitChars s.data []

/-- Accumulating scanner for `pySplitChar`. -/
def splitCharAcc (sep : Char) : List Char → List Char → List String
  | [], cur => [String.mk cur.reverse]
  | c :: rest, cur =>
    if c = sep then String.mk cur.reverse :: splitCharAcc sep rest []
    else splitCharAcc sep rest (c :: cur)

/-- Python `s.split(sep)` for a single-character separator (keeps empties,
`"".split(sep) == [""]`). -/
def pySplitChar (s : String) (sep : Char) : List String := splitCharAcc sep s.data []

/-- Python `s.endswith(p)`. -/
def pyEndsWith (s p : String) : Bool := p.data.isSuffixOf s.data

/-- Python slice `s[:-n]` (drop the last `n` characters). -/
def pyDropRight (s : String) (n : Nat) : String :=
  String.mk (s.data.take (s.data.length - n))

/-- Python `s.lower()`. -/
def lowerStr (s : String) : String := String.mk (s.data.map Char.toLower)

/-! ### rpm_patch_analyzer_fileName.py : normalizer and fingerprinter -/

/-- `re.sub(r'^([ab]/)+', '', ·)`: strip every leading `a/` or `b/` prefix. -/
def stripABChars : List Char → List Char
  | 'a' :: '/' :: rest => stripABChars rest
  | 'b' :: '/' :: rest => stripABChars rest
  | l => l

/-- String wrapper for `stripABChars`. -/
def stripAB (s : String) : String := String.mk (stripABChars s.data)

/-- Loop of `normalize_patch_content` (rpm_patch_analyzer_fileName.py, lines 210-238).
Keeps only hunk content: a line starting `"@@ "` turns into the canonical `"@@"`
marker and opens a hunk; outside hunks everything is dropped; inside a hunk, lines
are cleaned of `\r` and stripped, empties are dropped, and `--- `/`+++ ` headers
have their repeated `a/`/`b/` path prefixes removed from the last whitespace
separated word. -/
def normLoop : Bool → List String → List String
  | _, [] => []
  | inHunk, line :: rest =>
    if pyStartsWith line "@@ " then "@@" :: normLoop true rest
    else if inHunk = false then normLoop inHunk rest
    else
      let clean := pyTrim (pyRemCR line)
      if clean = "" then normLoop inHunk rest
      else if pyStartsWith clean "--- " || pyStartsWith clean "+++ " then
        let fname := stripAB ((pySplitWs clean).getLastD "")
        (pyTake clean 4 ++ fname) :: normLoop inHunk rest
      else clean :: normLoop inHunk rest

/-- `normalize_patch_content` applied to a patch given as a list of lines. -/
def normalize_patch_content (patch : List String) : List String := normLoop false patch

/-- `get_patch_hash` (rpm_patch_analyzer_fileName.py, lines 160-167): md5 of the
joined normalized content.  Modelled by the joined text itself; equality of
hashes stands for equality of the joined text. -/
def get_patch_hash (l : List String) : String := pyJoin "\n" l

/-! ### rpm_patch_analyzer_fileName.py : filename normalization -/

/-- The `NORMAL_EXTS` whitelist (rpm_patch_analyzer_fileName.py, lines 9-15). -/
def NORMAL_EXTS : List String :=
  [".c", ".cpp", ".cc", ".h", ".hpp", ".hh", ".py", ".java", ".js", ".rb",
   ".go", ".sh", ".bash", ".pl", ".php", ".html", ".htm", ".css", ".xml",
   ".json", ".yaml", ".yml", ".toml", ".ini", ".txt", ".md", ".rst", ".conf",
   ".in", ".am", ".m4", ".po", ".pot", ".desktop", ".service", ".spec", ".xslt",
   ".make", ".mk", ".ac", ".cmake", ".cfg", ".csv", ".svg", ".1"]

/-- Index of the last `'.'` of the character list, if any. -/
def lastDotIdx (cs : List Char) : Option Nat :=
  match cs.reverse.findIdx? (fun c => c = '.') with
  | none => none
  | some j => some (cs.length - 1 - j)

/-- `os.path.splitext` restricted to basenames (the repository always applies it
after `os.path.basename`): split at the last dot, unless every character before
that dot is itself a dot (leading-dot files keep their name whole). -/
def splitextB (s : String) : String × String :=
  match lastDotIdx s.data with
  | none => (s, "")
  | some i =>
    if (s.data.take i).any (fun c => c ≠ '.') then
      (String.mk (s.data.take i), String.mk (s.data.drop i))
    else (s, "")

/-- One application of `re.sub(r'(~|\.bak|\.orig|\.backup)$', '', ·)`.  The four
alternatives end in distinct characters, so at most one can match. -/
def stripBackup (s : String) : String :=
  if pyEndsWith s ".backup" then pyDropRight s 7
  else if pyEndsWith s ".orig" then pyDropRight s 5
  else if pyEndsWith s ".bak" then pyDropRight s 4
  else if pyEndsWith s "~" then pyDropRight s 1
  else s

/-- The `while ext and ext.lower() not in normal_exts` loop of
`normalize_patch_filename`; fuel bounds the number of splitext steps. -/
def extLoop : Nat → String → String → String × String
  | 0, b, e => (b, e)
  | Nat.succ fuel, b, e =>
    if e ≠ "" ∧ lowerStr e ∉ NORMAL_EXTS then
      let p := splitextB b
      extLoop fuel p.1 p.2
    else (b, e)

/-- `normalize_patch_filename` (rpm_patch_analyzer_fileName.py, lines 17-33). -/
def normalize_patch_filename (filename : String) : String :=
  let p := splitextB filename
  let f1 :=
    if p.2 = "" ∧ p.1 ≠ "" then stripBackup p.1
    else if lowerStr p.2 ∉ NORMAL_EXTS then
      let q := extLoop (filename.length + 1) p.1 p.2
      q.1 ++ q.2
    else filename
  stripBackup f1

/-- `os.path.basename`: the part after the last `/`. -/
def basenameStr (s : String) : String := (pySplitChar s '/').getLastD s

/-- `strip_patch_path` (rpm_patch_analyzer_fileName.py, lines 35-42). -/
def strip_patch_path (filePath : String) (stripLevel : Nat) : String :=
  if filePath = "" ∨ stripLevel = 0 then filePath
  else
    let parts := pySplitChar filePath '/'
    if parts.length ≤ stripLevel then parts.getLastD ""
    else pyJoin "/" (parts.drop stripLevel)

/-! ### rpm_patch_analyzer_fileName.py : feature extraction and scoring -/

/-- The fields of the feature dict returned by `extract_patch_features`:
`normalized_filenames` (a Python `list(set(...))`, used downstream only as a
set, hence a `Finset`) and `normalized_diff_lines`. -/
structure PatchFeatures where
  files : Finset String
  diffs : List String
deriving DecidableEq

/-- `extract_patch_features` (rpm_patch_analyzer_fileName.py, lines 240-256).
Header lines contribute a normalized basename; every line starting `+` or `-`
(including the headers themselves) is a diff line. -/
def extract_patch_features (norm : List String) (stripLevel : Nat) : PatchFeatures :=
  let files := norm.filterMap (fun line =>
    if pyStartsWith line "--- " || pyStartsWith line "+++ " then
      some (normalize_patch_filename (basenameStr
        (strip_patch_path (stripAB (pyTrim (pyDrop line 4))) stripLevel)))
    else none)
  let diffs := norm.filter (fun line => pyStartsWith line "+" || pyStartsWith line "-")
  ⟨files.toFinset, diffs⟩

/-- Jaccard index of two finite sets, as a rational; `0/0 = 0` by the ℚ
convention for division by zero. -/
def jaccardQ {α : Type} [DecidableEq α] (s t : Finset α) : ℚ :=
  ((s ∩ t).card : ℚ) / ((s ∪ t).card : ℚ)

/-- `file_list_similarity` (rpm_patch_analyzer_fileName.py, lines 259-263):
0 when either set is empty, else the Jaccard index. -/
def file_list_similarity (f1 f2 : Finset String) : ℚ :=
  if f1 = ∅ ∨ f2 = ∅ then 0 else jaccardQ f1 f2

/-- `diff_lines_similarity` (rpm_patch_analyzer_fileName.py, lines 265-269). -/
def diff_lines_similarity (d1 d2 : List String) : ℚ :=
  let s1 := d1.toFinset
  let s2 := d2.toFinset
  if s1 = ∅ ∨ s2 = ∅ then 0 else jaccardQ s1 s2

/-- `patch_similarity` (rpm_patch_analyzer_fileName.py, lines 271-276). -/
def patch_similarity (a b : PatchFeatures) (fileWeight diffWeight : ℚ) : ℚ :=
  fileWeight * file_list_similarity a.files b.files +
    diffWeight * diff_lines_similarity a.diffs b.diffs

/-- `compare_patches` (rpm_patch_analyzer_fileName.py, lines 278-289): hash fast
path first, else weighted feature similarity; the call-site defaults are
`stripA = stripB = 0`, `fileWeight = 3/10`, `diffWeight = 7/10`,
`threshold = 7/10`. -/
def compare_patches (contentA contentB : List String) (stripA stripB : Nat)
    (fileWeight diffWeight threshold : ℚ) : ℚ × Bool :=
  let normA := normalize_patch_content contentA
  let normB := normalize_patch_content contentB
  if get_patch_hash normA = get_patch_hash normB then (1, true)
  else
    let fA := extract_patch_features normA stripA
    let fB := extract_patch_features normB stripB
    let sim := patch_similarity fA fB fileWeight diffWeight
    (sim, decide (threshold ≤ sim))

/-! ### deb_rpm_patch_analyzer.py : improved similarity scorer -/

/-- `normalize_patch_lines` (deb_rpm_patch_analyzer.py, lines 618-625): strip
each line, drop empties and comment-looking lines. -/
def normalize_patch_lines (l : List String) : List String :=
  l.filterMap (fun line =>
    let t := pyTrim line
    if t = "" then none
    else if pyStartsWith t "#" || pyStartsWith t "//" || pyStartsWith t "/*" ||
        pyStartsWith t "*" || pyStartsWith t "*/" then none
    else some t)

/-- Fuzzy path of one `--- `/`+++ ` header line (deb_rpm_patch_analyzer.py,
lines 627-641): drop the marker, strip, remove a single `a/`/`b/` prefix and
keep the last two path segments (or the single segment). -/
def fuzzyOfLine (line : String) : Option String :=
  if pyStartsWith line "+++ " || pyStartsWith line "--- " then
    let path0 := pyTrim (pyDrop ((pySplitChar line '\t').headD "") 4)
    let path1 := if pyStartsWith path0 "a/" || pyStartsWith path0 "b/" then pyDrop path0 2 else path0
    let parts := pySplitChar path1 '/'
    if 2 ≤ parts.length then some (pyJoin "/" (parts.drop (parts.length - 2)))
    else some (parts.getLastD "")
  else none

/-- `extract_fuzzy_paths` (deb_rpm_patch_analyzer.py, lines 627-641). -/
def extract_fuzzy_paths (l : List String) : Finset String :=
  (l.filterMap fuzzyOfLine).toFinset

/-- Characters forming identifier-like tokens. -/
def isWordChar (c : Char) : Bool := c.isAlphanum || c = '_'

/-- Token scanner: `cur` is the reversed current alphanumeric run. -/
def tokChars : List Char → List Char → List String
  | [], cur => if cur.isEmpty then [] else [String.mk cur.reverse]
  | c :: rest, cur =>
    if isWordChar c then tokChars rest (c :: cur)
    else
      let pre := if cur.isEmpty then [] else [String.mk cur.reverse]
      if isSpc c then pre ++ tokChars rest []
      else pre ++ (String.mk [c] :: tokChars rest [])

/-- Modelled from the spec: `tokenize_code` is imported from
`rpm_patch_analyzer_fileName` by both scorer modules but is not present
anywhere under src/.  Spec 4.3: "tokenize the remainder into an ordered
sequence of identifier-like tokens (alphanumeric runs, operators, punctuation
treated as separate tokens — the exact tokenizer is a simple lexical splitter,
not a language parser)". -/
def tokenize_code (s : String) : List String := tokChars s.data []

/-- Modelled from the spec: `generate_ngrams` is imported from
`rpm_patch_analyzer_fileName` but is not present anywhere under src/.
Spec 4.3: "generate contiguous n-grams (fixed small n, e.g. 3) over each token
sequence, producing ... sets (order no longer relevant once converted to
n-gram sets)"; n = 3 is used. -/
def generate_ngrams (tokens : List String) : Finset (List String) :=
  ((List.range (tokens.length + 1 - 3)).map (fun i => (tokens.drop i).take 3)).toFinset

/-- The `added_lines` comprehension of `calculate_patch_similarity_improved`:
lines starting `+` but not `+++`, marker dropped, stripped. -/
def addedLinesOf (p : List String) : List String :=
  (p.filter (fun l => pyStartsWith l "+" && !pyStartsWith l "+++")).map
    (fun l => pyTrim (pyDrop l 1))

/-- The `removed_lines` comprehension: lines starting `-` but not `---`. -/
def removedLinesOf (p : List String) : List String :=
  (p.filter (fun l => pyStartsWith l "-" && !pyStartsWith l "---")).map
    (fun l => pyTrim (pyDrop l 1))

/-- N-gram set of the added lines of a patch. -/
def added_ngrams_of (p : List String) : Finset (List String) :=
  generate_ngrams ((addedLinesOf p).map tokenize_code).flatten

/-- N-gram set of the removed lines of a patch. -/
def removed_ngrams_of (p : List String) : Finset (List String) :=
  generate_ngrams ((removedLinesOf p).map tokenize_code).flatten

/-- The `added_jaccard` block of `calculate_patch_similarity_improved`
(deb_rpm_patch_analyzer.py, lines 673-677): 0 unless some side is nonempty,
then intersection over union guarded against an empty union. -/
def added_jaccard (p1 p2 : List String) : ℚ :=
  let n1 := added_ngrams_of p1
  let n2 := added_ngrams_of p2
  if n1 ≠ ∅ ∨ n2 ≠ ∅ then
    (if 0 < (n1 ∪ n2).card then ((n1 ∩ n2).card : ℚ) / ((n1 ∪ n2).card : ℚ) else 0)
  else 0

/-- The `removed_jaccard` block (deb_rpm_patch_analyzer.py, lines 679-683). -/
def removed_jaccard (p1 p2 : List String) : ℚ :=
  let n1 := removed_ngrams_of p1
  let n2 := removed_ngrams_of p2
  if n1 ≠ ∅ ∨ n2 ≠ ∅ then
    (if 0 < (n1 ∪ n2).card then ((n1 ∩ n2).card : ℚ) / ((n1 ∪ n2).card : ℚ) else 0)
  else 0

/-- The `path_similarity` block (deb_rpm_patch_analyzer.py, lines 650-655). -/
def deb_path_similarity (p1 p2 : List String) : ℚ :=
  let s1 := extract_fuzzy_paths p1
  let s2 := extract_fuzzy_paths p2
  if s1 ≠ ∅ ∨ s2 ≠ ∅ then
    (if 0 < (s1 ∪ s2).card then ((s1 ∩ s2).card : ℚ) / ((s1 ∪ s2).card : ℚ) else 0)
  else 0

/-- `code_similarity = 0.5 * added_jaccard + 0.5 * removed_jaccard`
(deb_rpm_patch_analyzer.py, line 685). -/
def code_similarity (p1 p2 : List String) : ℚ :=
  (1/2) * added_jaccard p1 p2 + (1/2) * removed_jaccard p1 p2

/-- `difflib.SequenceMatcher(None, a, b).ratio()` modelled through the oracle
`mlen` (total size of the matching blocks): difflib computes
`2 * matches / (len a + len b)` and returns 1.0 when both strings are empty.
Every faithful `mlen` satisfies `mlen a b ≤ min (len a) (len b)`. -/
def alignScore (mlen : String → String → Nat) (a b : String) : ℚ :=
  if a.length + b.length = 0 then 1
  else (2 * (mlen a b : ℚ)) / ((a.length : ℚ) + (b.length : ℚ))

/-- `calculate_patch_similarity_improved` (deb_rpm_patch_analyzer.py, lines
643-698), parametrized by the difflib oracle `mlen`. -/
def calculate_patch_similarity_improved (mlen : String → String → Nat)
    (p1 p2 : List String) : ℚ :=
  if p1 = [] ∨ p2 = [] then 0
  else
    let pathSim := deb_path_similarity p1 p2
    let codeSim := code_similarity p1 p2
    let n1 := normalize_patch_lines p1
    let n2 := normalize_patch_lines p2
    let rawSim := if n1 ≠ [] ∧ n2 ≠ [] then alignScore mlen (pyJoin "\n" n1) (pyJoin "\n" n2) else 0
    let finalSim := (1/10) * pathSim + (9/10) * codeSim
    if codeSim < 1/2 ∧ 4/5 < rawSim then (finalSim + rawSim) / 2 else finalSim

/-- The scoring formula exactly as the spec (section 4.4) and claim C4 state
it: `0.1 * path + 0.9 * (0.5 * added_jaccard + 0.5 * removed_jaccard)`, with
each jaccard the plain intersection-over-union (0 on an empty union), the raw
ratio `2 * matches / (lenA + lenB)` over the joined normalized texts, and the
fallback blend when `code < 0.5` and `raw > 0.8`. -/
def spec_similarity_formula (mlen : String → String → Nat)
    (p1 p2 : List String) : ℚ :=
  let pathSim := jaccardQ (extract_fuzzy_paths p1) (extract_fuzzy_paths p2)
  let aj := jaccardQ (added_ngrams_of p1) (added_ngrams_of p2)
  let rj := jaccardQ (removed_ngrams_of p1) (removed_ngrams_of p2)
  let codeSim := (1/2) * aj + (1/2) * rj
  let j1 := pyJoin "\n" (normalize_patch_lines p1)
  let j2 := pyJoin "\n" (normalize_patch_lines p2)
  let rawSim := (2 * (mlen j1 j2 : ℚ)) / ((j1.length : ℚ) + (j2.length : ℚ))
  let finalSim := (1/10) * pathSim + (9/10) * codeSim
  if codeSim < 1/2 ∧ 4/5 < rawSim then (finalSim + rawSim) / 2 else finalSim

/-! ### deb_rpm_patch_analyzer.py : compare_fedora_debian_patches -/

/-- Rounding to two decimals, modelling storage of the similarity as the
formatted string `f"{similarity:.2f}"` later parsed back by `float`.  Python
formats with round-half-even; the difference only shows at exact `.xx5` ties,
which none of the statements below exercise. -/
def round2 (q : ℚ) : ℚ := (⌊q * 100 + 1/2⌋ : ℚ) / 100

/-- Mutable state of the double loop of `compare_fedora_debian_patches`
(deb_rpm_patch_analyzer.py, lines 347-401): the `processed_patches` set, the
`matched_patches` insertion-ordered dict (fedora name, debian name, similarity)
and the `same_function_patches` list. -/
structure DebState where
  processed : List (String × String)
  matched : List (String × String × ℚ)
  simrec : List (String × String × ℚ)
deriving DecidableEq

/-- The initial matcher state. -/
def debInit : DebState := ⟨[], [], []⟩

/-- Body of the inner `for d_patch in debian_patches` loop
(deb_rpm_patch_analyzer.py, lines 363-398), for a fedora patch `f` whose
retrieved content is `c`: skip processed pairs, unreadable/empty debian
content, contents over 10000 lines and pairs where either content has fewer
than 3 lines; otherwise score the pair, record an exact match in the
`matched` dict (first hit per fedora name) and any score reaching one of the
thresholds 0.7 / 0.6 / 0.5 in `simrec` with its two-decimal rounded score. -/
def debPairStep (mlen : String → String → Nat) (dC : String → Option (List String))
    (f : String) (c : List String) (st : DebState) (d : String) : DebState :=
  if (f, d) ∈ st.processed then st
  else
    match dC d with
    | none => st
    | some dc =>
      if dc = [] then st
      else if 10000 < dc.length then st
      else if c.length < 3 ∨ dc.length < 3 then st
      else
        let sim := calculate_patch_similarity_improved mlen c dc
        let st1 : DebState := ⟨(f, d) :: st.processed, st.matched, st.simrec⟩
        if sim = 1 then
          if f ∈ st.matched.map (fun e => e.1) then st1
          else ⟨st1.processed, st.matched ++ [(f, d, sim)], st.simrec⟩
        else if 7/10 ≤ sim ∨ 6/10 ≤ sim ∨ 1/2 ≤ sim then
          ⟨st1.processed, st.matched, st.simrec ++ [(f, d, round2 sim)]⟩
        else st1

/-- The inner loop over the debian patch list. -/
def debInner (mlen : String → String → Nat) (dC : String → Option (List String))
    (f : String) (c : List String) : DebState → List String → DebState
  | st, [] => st
  | st, d :: rest => debInner mlen dC f c (debPairStep mlen dC f c st d) rest

/-- The outer loop over the fedora patch list (deb_rpm_patch_analyzer.py,
lines 352-361): skip fedora patches with unreadable or empty content and
contents over 10000 lines, else run the inner loop. -/
def debOuter (mlen : String → String → Nat) (fC dC : String → Option (List String))
    (debs : List String) : DebState → List String → DebState
  | st, [] => st
  | st, f :: rest =>
    let st1 :=
      match fC f with
      | none => st
      | some c =>
        if c = [] then st
        else if 10000 < c.length then st
        else debInner mlen dC f c st debs
    debOuter mlen fC dC debs st1 rest

/-- One step of the `func_best` dedup (deb_rpm_patch_analyzer.py, lines
402-408): keep per fedora name the entry with the strictly larger stored
similarity, at the position of the first occurrence. -/
def funcBestUpd (acc : List (String × String × ℚ)) (e : String × String × ℚ) :
    List (String × String × ℚ) :=
  match acc.find? (fun x => x.1 == e.1) with
  | none => acc ++ [e]
  | some old =>
    if old.2.2 < e.2.2 then acc.map (fun x => if x.1 = e.1 then e else x) else acc

/-- Fold of `funcBestUpd` over the recorded similar pairs. -/
def funcBestGo : List (String × String × ℚ) → List (String × String × ℚ) →
    List (String × String × ℚ)
  | acc, [] => acc
  | acc, e :: rest => funcBestGo (funcBestUpd acc e) rest

/-- `func_best` dedup: best recorded pair per fedora patch. -/
def funcBest (l : List (String × String × ℚ)) : List (String × String × ℚ) :=
  funcBestGo [] l

/-- The four outputs of `compare_fedora_debian_patches`:
`matched_patches`, `unmatched_fedora`, `unmatched_debian`,
`same_function_patches`. -/
structure DebResult where
  matched : List (String × String × ℚ)
  unmatchedF : List String
  unmatchedD : List String
  similar : List (String × String × ℚ)
deriving DecidableEq

/-- Pure core of `compare_fedora_debian_patches` (deb_rpm_patch_analyzer.py,
lines 343-418), with the patch-name lists and the content retrieval (shell
and WSL calls) supplied as inputs `feds`, `debs`, `fC`, `dC`.  Content is a
function of the patch name, as in the source where it is re-fetched by name. -/
def compare_fedora_debian_patches (mlen : String → String → Nat)
    (feds debs : List String) (fC dC : String → Option (List String)) : DebResult :=
  if debs = [] then ⟨[], feds, [], []⟩
  else
    let st := debOuter mlen fC dC debs debInit feds
    let simFinal := funcBest st.simrec
    let mF := st.matched.map (fun e => e.1)
    let mD := st.matched.map (fun e => e.2.1)
    let sF := simFinal.map (fun e => e.1)
    let sD := simFinal.map (fun e => e.2.1)
    ⟨st.matched,
     feds.filter (fun p => decide (p ∉ mF ∧ p ∉ sF)),
     debs.filter (fun p => decide (p ∉ mD ∧ p ∉ sD)),
     simFinal⟩

/-! ### test_rpm_patch_analyzer.py : the round-based matcher -/

/-- Modelled from the spec: `extract_diff_lines_only` is imported by the test
harness from `rpm_patch_analyzer`, a module whose scoring half is not present
under src/.  Per its name and spec 4.3, it keeps the diff lines (lines
starting `+` or `-`) of a normalized patch. -/
def extract_diff_lines_only (norm : List String) : List String :=
  norm.filter (fun l => pyStartsWith l "+" || pyStartsWith l "-")

/-- Modelled from the spec: `compare_patches_by_diff_only` is imported by the
test harness from `rpm_patch_analyzer` but is not present under src/.
Following spec 4.2 (fingerprint fast path) and 4.4 restricted to diff content
only: normalize both patches, return (1.0, True) on equal fingerprints, else
the Jaccard similarity of the diff-line sets and its comparison with the
threshold. -/
def compare_patches_by_diff_only (a b : List String) (threshold : ℚ) : ℚ × Bool :=
  let nA := normalize_patch_content a
  let nB := normalize_patch_content b
  if get_patch_hash nA = get_patch_hash nB then (1, true)
  else
    let sim := diff_lines_similarity (extract_diff_lines_only nA) (extract_diff_lines_only nB)
    (sim, decide (threshold ≤ sim))

/-- Rounding to three decimals, modelling the Python `round(sim, 3)` stored in
the match record (half-even ties, not exercised below). -/
def round3 (q : ℚ) : ℚ := (⌊q * 1000 + 1/2⌋ : ℚ) / 1000

/-- Scan of the inner `for t in list(left_tgt)` loop of `match_round`
(test_rpm_patch_analyzer.py, lines 66-89): first target patch whose comparison
flag is ok, with its similarity. -/
def scanTgt (threshold : ℚ) (sTxt : List String) (td : String → List String) :
    List String → Option (String × ℚ)
  | [] => none
  | t :: rest =>
    let pr := compare_patches_by_diff_only sTxt (td t) threshold
    if pr.2 then some (t, pr.1) else scanTgt threshold sTxt td rest

/-- `match_round` (test_rpm_patch_analyzer.py, lines 66-89) over explicit
iteration orders: fold over the source names; on a hit record the pair with
its rounded similarity and remove both names from the remaining lists.
Returns (record, remaining source, remaining target). -/
def matchRound (threshold : ℚ) (sd td : String → List String) :
    List String → List String → List (String × String × ℚ) × List String × List String
  | [], tgt => ([], [], tgt)
  | s :: rest, tgt =>
    match scanTgt threshold (sd s) td tgt with
    | some (t, sim) =>
      let r := matchRound threshold sd td rest (tgt.erase t)
      ((s, t, round3 sim) :: r.1, r.2.1, r.2.2)
    | none =>
      let r := matchRound threshold sd td rest tgt
      (r.1, s :: r.2.1, r.2.2)

/-- A `ComparisonResult` of the round-based matcher. -/
structure PipeResult where
  common : List (String × String × ℚ)
  similar : List (String × String × ℚ)
  uniqueSrc : List String
  uniqueTgt : List String
deriving DecidableEq

/-- The matcher pipeline of `main` (test_rpm_patch_analyzer.py, lines
199-227): an exact round at threshold 1.0, a similarity round at 0.8, and the
leftovers as the unique lists.  The Python source iterates over `set`s; the
iteration orders are the orders of the `src` and `tgt` lists supplied here. -/
def matchPipeline (src tgt : List String) (sd td : String → List String) : PipeResult :=
  let r1 := matchRound 1 sd td src tgt
  let r2 := matchRound (4/5) sd td r1.2.1 r1.2.2
  ⟨r1.1, r2.1, r2.2.1, r2.2.2⟩

/-! ### Concrete data used by witnesses and counterexamples -/

/-- A faithful stand-in for the difflib oracle on the inputs used below: on two
equal strings every character matches, on distinct strings the value of the
oracle is irrelevant to the statements below and is taken to be 0.  It is
symmetric and satisfies the matching bound `mlen a b ≤ min (len a) (len b)`. -/
def mlenEq (a b : String) : Nat := if a = b then a.length else 0

/-- A well-formed single-file patch: header lines, one hunk, one removed and
one added code line. -/
def exIdent : List String :=
  ["--- a/x/y.c", "+++ b/x/y.c", "@@ -1 +1 @@", "-a b c", "+d e f"]

/-- `exIdent` with a different added line (token n-grams disjoint from
`exIdent`'s added n-grams). -/
def exVarG : List String :=
  ["--- a/x/y.c", "+++ b/x/y.c", "@@ -1 +1 @@", "-a b c", "+d e g"]

/-- Another variant with a third distinct added line. -/
def exVarH : List String :=
  ["--- a/x/y.c", "+++ b/x/y.c", "@@ -1 +1 @@", "-a b c", "+d e h"]

/-- A patch whose hunk carries no file-header lines: its normalization has an
empty fuzzy-path set and an empty feature file set. -/
def exNoHead : List String := ["@@ -1 +1 @@", "-a b c", "+d e f"]

/-- Content map for the C1 counterexample, fedora side. -/
def exC1fC : String → Option (List String) :=
  fun n => if n = "f" then some exIdent else none

/-- Content map for the C1 counterexample, debian side. -/
def exC1dC : String → Option (List String) :=
  fun n => if n = "d1" then some exIdent else if n = "d2" then some exVarG else none

/-- Content map for the C6 counterexample, fedora side: two variants. -/
def exC6fC : String → Option (List String) :=
  fun n => if n = "f1" then some exVarG else if n = "f2" then some exVarH else none

/-- Content map for the C6 counterexample, debian side: the base patch. -/
def exC6dC : String → Option (List String) :=
  fun n => if n = "d" then some exIdent else none

/-- Content map for the C3 counterexample (fedora side, headerless patch). -/
def exC3fC : String → Option (List String) :=
  fun n => if n = "f" then some exNoHead else none

/-- Content map for the C3 counterexample (debian side, identical patch). -/
def exC3dC : String → Option (List String) :=
  fun n => if n = "d" then some exNoHead else none

/-- Source-side contents for the C7 counterexample: two patches normalizing
identically (they differ only in hunk coordinates). -/
def exC7sd : String → List String :=
  fun n => if n = "f1" then ["@@ -1 +1 @@", "+x"] else ["@@ -2 +2 @@", "+x"]

/-- Target-side contents for the C7 counterexample. -/
def exC7td : String → List String :=
  fun _ => ["@@ -3 +3 @@", "+x"]

/-- Content map for the C9 witness, fedora side: `g` has a one-line content
(below the 3-line cutoff), `f` a well-formed patch. -/
def exC9fC : String → Option (List String) :=
  fun n => if n = "g" then some ["+x"] else if n = "f" then some exIdent else none

/-- Content map for the C9 witness, debian side: `e` has a one-line content,
`d` a well-formed patch. -/
def exC9dC : String → Option (List String) :=
  fun n => if n = "d" then some exIdent else if n = "e" then some ["+y"] else none

/-- A two-file patch: the second file's `--- `/`+++ ` headers sit inside the
first hunk, so its normalization has a nonempty file set and nonempty diff
lines. -/
def exMulti : List String :=
  ["@@ -1 +1 @@", "-a", "+b", "--- a/d/f.c", "+++ b/d/f.c",
   "@@ -2 +2 @@", "-x y z", "+u v w"]

/-- Source contents for the C2 witness: `a0` is a hunk-less text, `s1` a
well-formed patch. -/
def exC2sd : String → List String :=
  fun n => if n = "a0" then ["not a diff at all"] else ["@@ -1 +1 @@", "+q"]

/-- Target contents for the C2 witness: every name maps to a well-formed
patch, so every target normalization is nonempty. -/
def exC2td : String → List String :=
  fun _ => ["@@ -1 +1 @@", "+q"]

/-! ### Helper lemmas -/

lemma string_mk_ne_empty (l : List Char) (h : l ≠ []) : String.mk l ≠ "" := by
  intro hc
  exact h (congrArg String.data hc)

lemma string_append_ne_empty (s t : String) (h : s ≠ "") : s ++ t ≠ "" := by
  cases s with
  | mk a =>
    cases t with
    | mk b =>
      intro hc
      have hd : a ++ b = [] := congrArg String.data hc
      rcases List.append_eq_nil.mp hd with ⟨ha, _⟩
      exact h (by simp [ha])

lemma pyTake_prefix_ne (s p : String) (hp : p.data ≠ []) (h : pyStartsWith s p = true) :
    pyTake s p.data.length ≠ "" := by
  unfold pyStartsWith at h
  rw [List.isPrefixOf_iff_prefix] at h
  rcases h with ⟨rest, hrest⟩
  unfold pyTake
  apply string_mk_ne_empty
  rw [← hrest, List.take_left]
  exact hp

lemma normLoop_mem_ne_empty (l : List String) : ∀ b, ∀ x ∈ normLoop b l, x ≠ "" := by
  induction l with
  | nil => intro b x hx; simp [normLoop] at hx
  | cons line rest ih =>
    intro b x hx
    unfold normLoop at hx
    split at hx
    · rcases List.mem_cons.mp hx with h | h
      · subst h; decide
      · exact ih true x h
    · split at hx
      · exact ih b x hx
      · dsimp only at hx
        split at hx
        · exact ih b x hx
        · split at hx
          · rcases List.mem_cons.mp hx with h | h
            · subst h
              apply string_append_ne_empty
              rename_i hcl hsw
              rcases Bool.or_eq_true _ _ |>.mp hsw with hh | hh
              · have := pyTake_prefix_ne _ "--- " (by decide) hh
                simpa using this
              · have := pyTake_prefix_ne _ "+++ " (by decide) hh
                simpa using this
            · exact ih b x h
          · rcases List.mem_cons.mp hx with h | h
            · subst h; rename_i hcl _; exact hcl
            · exact ih b x h

lemma pyJoin_ne_empty (sep : String) (l : List String) (h1 : l ≠ [])
    (h2 : ∀ x ∈ l, x ≠ "") : pyJoin sep l ≠ "" := by
  match l with
  | [] => exact absurd rfl h1
  | [x] => simpa [pyJoin] using h2 x (by simp)
  | x :: y :: rest =>
    show x ++ sep ++ pyJoin sep (y :: rest) ≠ ""
    apply string_append_ne_empty
    apply string_append_ne_empty
    exact h2 x (by simp)

lemma norm_hash_ne_empty (B : List String) (h : normalize_patch_content B ≠ []) :
    get_patch_hash (normalize_patch_content B) ≠ "" := by
  apply pyJoin_ne_empty _ _ h
  intro x hx
  exact normLoop_mem_ne_empty B false x hx

lemma normLoop_false_of_no_marker (l : List String)
    (h : ∀ x ∈ l, pyStartsWith x "@@ " = false) : normLoop false l = [] := by
  induction l with
  | nil => rfl
  | cons line rest ih =>
    have hl : pyStartsWith line "@@ " = false := h line (by simp)
    unfold normLoop
    rw [hl]
    simp only [Bool.false_eq_true, if_false, if_pos rfl]
    exact ih (fun x hx => h x (by simp [hx]))

lemma jaccardQ_self {α : Type} [DecidableEq α] (s : Finset α) (h : s ≠ ∅) :
    jaccardQ s s = 1 := by
  unfold jaccardQ
  rw [Finset.inter_self, Finset.union_self]
  have hc : (s.card : ℚ) ≠ 0 := by
    exact_mod_cast Finset.card_ne_zero_of_mem (Finset.nonempty_iff_ne_empty.mpr h).choose_spec
  exact div_self hc

/-! ### Claim C10 -/

/-- Claim C10 (amended): normalization is not idempotent — for every input
whose normalized output is non-empty and contains no line starting with
`"@@ "`, applying `normalize_patch_content` to its own output yields the
empty sequence, because the canonical `@@` marker it emits is never itself
recognized as a hunk start on a second pass. -/
theorem claim_C10 (x : List String) (_h1 : normalize_patch_content x ≠ [])
    (h2 : ∀ l ∈ normalize_patch_content x, pyStartsWith l "@@ " = false) :
    normalize_patch_content (normalize_patch_content x) = [] :=
  normLoop_false_of_no_marker _ h2

/-- Witness for C10: a one-hunk patch normalizes to a nonempty sequence which
re-normalizes to the empty sequence. -/
theorem claim_C10_witness :
    normalize_patch_content ["@@ -1 +1 @@", "+a"] ≠ [] ∧
    normalize_patch_content (normalize_patch_content ["@@ -1 +1 @@", "+a"]) = [] :=
  ⟨by decide, claim_C10 ["@@ -1 +1 @@", "+a"] (by decide) (by decide)⟩

/-- Counterexample to C10 as stated: a hunk-body line that strips to start
with `"@@ "` survives normalization and is recognized as a hunk start on the
second pass, so the re-normalized output is non-empty although the first
output was non-empty. -/
theorem claim_C10_counter :
    normalize_patch_content ["@@ -1 +1 @@", " @@ x"] ≠ [] ∧
    normalize_patch_content (normalize_patch_content ["@@ -1 +1 @@", " @@ x"]) ≠ [] := by
  decide

/-! ### Claim C8 -/

/-- Claim C8: when both sides' added (or removed) n-gram sets are empty the
corresponding Jaccard contribution of `calculate_patch_similarity_improved`
is exactly 0 (the guard prevents any division by an empty union; the
computation is total by construction), and with all four sets empty the code
similarity is 0. -/
theorem claim_C8 (p1 p2 : List String) :
    (added_ngrams_of p1 = ∅ → added_ngrams_of p2 = ∅ → added_jaccard p1 p2 = 0) ∧
    (removed_ngrams_of p1 = ∅ → removed_ngrams_of p2 = ∅ → removed_jaccard p1 p2 = 0) ∧
    (added_ngrams_of p1 = ∅ → added_ngrams_of p2 = ∅ → removed_ngrams_of p1 = ∅ →
      removed_ngrams_of p2 = ∅ → code_similarity p1 p2 = 0) := by
  refine ⟨fun h1 h2 => ?_, fun h1 h2 => ?_, fun h1 h2 h3 h4 => ?_⟩
  · unfold added_jaccard
    rw [h1, h2]
    simp
  · unfold removed_jaccard
    rw [h1, h2]
    simp
  · unfold code_similarity
    have ha : added_jaccard p1 p2 = 0 := by
      unfold added_jaccard; rw [h1, h2]; simp
    have hr : removed_jaccard p1 p2 = 0 := by
      unfold removed_jaccard; rw [h3, h4]; simp
    rw [ha, hr]
    ring

/-- Witness for C8: two patches with no added and no removed code lines. -/
theorem claim_C8_witness :
    added_jaccard ["@@ -1 +1 @@"] ["hello world"] = 0 ∧
    removed_jaccard ["@@ -1 +1 @@"] ["hello world"] = 0 ∧
    code_similarity ["@@ -1 +1 @@"] ["hello world"] = 0 := by
  have h := claim_C8 ["@@ -1 +1 @@"] ["hello world"]
  exact ⟨h.1 (by decide) (by decide), h.2.1 (by decide) (by decide),
    h.2.2 (by decide) (by decide) (by decide) (by decide)⟩

/-! ### Claim C2 -/

lemma cpbdo_flag_false (A t : List String) (th : ℚ)
    (hA : normalize_patch_content A = [])
    (ht : normalize_patch_content t ≠ []) (hth : 0 < th) :
    (compare_patches_by_diff_only A t th).2 = false := by
  unfold compare_patches_by_diff_only
  rw [hA]
  rw [if_neg (fun hc => norm_hash_ne_empty t ht hc.symm)]
  have hsim : diff_lines_similarity (extract_diff_lines_only [])
      (extract_diff_lines_only (normalize_patch_content t)) = 0 := by
    unfold diff_lines_similarity extract_diff_lines_only
    simp
  simp only [hsim]
  rw [decide_eq_false_iff_not]
  exact fun hc => absurd (lt_of_lt_of_le hth hc) (by norm_num)

lemma scanTgt_none (th : ℚ) (sTxt : List String) (td : String → List String)
    (h : ∀ t, (compare_patches_by_diff_only sTxt (td t) th).2 = false) :
    ∀ tl, scanTgt th sTxt td tl = none := by
  intro tl
  induction tl with
  | nil => rfl
  | cons t rest ih =>
    unfold scanTgt
    dsimp only
    rw [h t]
    simpa using ih

lemma matchRound_keeps (th : ℚ) (sd td : String → List String) (a : String)
    (h : ∀ t, (compare_patches_by_diff_only (sd a) (td t) th).2 = false) :
    ∀ src tgt, a ∈ src → a ∈ (matchRound th sd td src tgt).2.1 := by
  intro src
  induction src with
  | nil => intro tgt ha; simp at ha
  | cons s rest ih =>
    intro tgt ha
    unfold matchRound
    by_cases hsa : s = a
    · subst hsa
      rw [scanTgt_none th (sd s) td h tgt]
      simp
    · rcases List.mem_cons.mp ha with hc | hc
      · exact absurd hc.symm hsa
      · cases hscan : scanTgt th (sd s) td tgt with
        | some p =>
          simp only [hscan]
          exact ih (tgt.erase p.1) hc
        | none =>
          simp only [hscan]
          exact List.mem_cons_of_mem s (ih tgt hc)

/-- Claim C2 (amended): a patch text with no `@@ ` hunk marker normalizes to
the empty sequence (normalization is a total function, so no exception can be
raised); `compare_patches` scores it 0 (flag False) against every patch whose
normalization is non-empty; and in the round-based matcher it always lands in
the unique list of its side whenever every patch on the other side has a
non-empty normalization.  (Against another hunk-less patch the comparison is
1.0 via the fingerprint fast path — see the counterexample.) -/
theorem claim_C2 (A : List String) (hA : ∀ l ∈ A, pyStartsWith l "@@ " = false) :
    normalize_patch_content A = [] ∧
    (∀ B, normalize_patch_content B ≠ [] →
      compare_patches A B 0 0 (3/10) (7/10) (7/10) = (0, false)) ∧
    (∀ src tgt sd td a, sd a = A →
      (∀ t, normalize_patch_content (td t) ≠ []) →
      a ∈ src → a ∈ (matchPipeline src tgt sd td).uniqueSrc) := by
  have hA0 : normalize_patch_content A = [] := normLoop_false_of_no_marker A hA
  refine ⟨hA0, fun B hB => ?_, fun src tgt sd td a hsda htd ha => ?_⟩
  · unfold compare_patches
    rw [hA0]
    rw [if_neg (fun hc => norm_hash_ne_empty B hB hc.symm)]
    have hfA : extract_patch_features [] 0 = ⟨∅, []⟩ := rfl
    have hsim : patch_similarity (extract_patch_features [] 0)
        (extract_patch_features (normalize_patch_content B) 0) (3/10) (7/10) = 0 := by
      rw [hfA]
      unfold patch_similarity file_list_similarity diff_lines_similarity
      simp
    simp only [hsim]
    norm_num
  · have hflag : ∀ th : ℚ, 0 < th →
        ∀ t, (compare_patches_by_diff_only (sd a) (td t) th).2 = false := by
      intro th hth t
      rw [hsda]
      exact cpbdo_flag_false A (td t) th hA0 (htd t) hth
    unfold matchPipeline
    have h1 := matchRound_keeps 1 sd td a (hflag 1 (by norm_num)) src tgt ha
    exact matchRound_keeps (4/5) sd td a (hflag (4/5) (by norm_num)) _ _ h1

/-- Witness for C2: a concrete hunk-less text normalizes to empty, scores
(0, False) against a well-formed patch, and lands in the unique source list
of a concrete pipeline run. -/
theorem claim_C2_witness :
    normalize_patch_content (exC2sd "a0") = [] ∧
    compare_patches (exC2sd "a0") exIdent 0 0 (3/10) (7/10) (7/10) = (0, false) ∧
    "a0" ∈ (matchPipeline ["a0", "s1"] ["t1"] exC2sd exC2td).uniqueSrc := by
  have h := claim_C2 (exC2sd "a0") (by decide)
  exact ⟨h.1, h.2.1 exIdent (by decide),
    h.2.2 ["a0", "s1"] ["t1"] exC2sd exC2td "a0" rfl (fun t => by unfold exC2td; decide)
      (by decide)⟩

/-- Counterexample to C2 as stated: two hunk-less patch texts score 1.0
(flag True) against each other through the fingerprint fast path of
`compare_patches`, not 0. -/
theorem claim_C2_counter :
    (∀ l ∈ (["alpha"] : List String), pyStartsWith l "@@ " = false) ∧
    (∀ l ∈ (["beta"] : List String), pyStartsWith l "@@ " = false) ∧
    compare_patches ["alpha"] ["beta"] 0 0 (3/10) (7/10) (7/10) = (1, true) ∧
    (compare_patches ["alpha"] ["beta"] 0 0 (3/10) (7/10) (7/10)).1 ≠ 0 := by
  decide

/-! ### Claim C3 -/

/-- Claim C3 (amended): patches with equal fingerprints of their normalized
content get `(1.0, True)` from `compare_patches` without the feature scorer
being consulted; and for byte-identical normalizations (same strip level) the
feature scorer itself also returns 1.0 provided the normalization yields a
nonempty normalized-filename set and nonempty diff lines.  (Without that
proviso the scorer disagrees with the fast path, and the Fedora–Debian
matcher, which never consults fingerprints, can put byte-identical patches in
`similar` — see the counterexample.) -/
theorem claim_C3 (A B : List String) (sA sB : Nat) (fw dw th : ℚ)
    (hhash : get_patch_hash (normalize_patch_content A) =
      get_patch_hash (normalize_patch_content B)) :
    compare_patches A B sA sB fw dw th = (1, true) ∧
    (normalize_patch_content A = normalize_patch_content B → sA = sB →
      (extract_patch_features (normalize_patch_content A) sA).files ≠ ∅ →
      (extract_patch_features (normalize_patch_content A) sA).diffs ≠ [] →
      patch_similarity (extract_patch_features (normalize_patch_content A) sA)
        (extract_patch_features (normalize_patch_content B) sB) (3/10) (7/10) = 1) := by
  constructor
  · unfold compare_patches
    rw [if_pos hhash]
  · intro hnorm hs hfiles hdiffs
    rw [← hnorm, ← hs]
    unfold patch_similarity
    have hf : file_list_similarity (extract_patch_features (normalize_patch_content A) sA).files
        (extract_patch_features (normalize_patch_content A) sA).files = 1 := by
      unfold file_list_similarity
      rw [if_neg (by tauto)]
      exact jaccardQ_self _ hfiles
    have hd : diff_lines_similarity (extract_patch_features (normalize_patch_content A) sA).diffs
        (extract_patch_features (normalize_patch_content A) sA).diffs = 1 := by
      unfold diff_lines_similarity
      have hne : (extract_patch_features (normalize_patch_content A) sA).diffs.toFinset ≠ ∅ := by
        intro hc
        exact hdiffs (List.toFinset_eq_empty_iff _ |>.mp hc)
      rw [if_neg (by tauto)]
      exact jaccardQ_self _ hne
    rw [hf, hd]
    norm_num

/-- Witness for C3: a two-file patch compared with itself — fast path and
feature scorer both give 1.0. -/
theorem claim_C3_witness :
    compare_patches exMulti exMulti 0 0 (3/10) (7/10) (7/10) = (1, true) ∧
    patch_similarity (extract_patch_features (normalize_patch_content exMulti) 0)
      (extract_patch_features (normalize_patch_content exMulti) 0) (3/10) (7/10) = 1 := by
  have h := claim_C3 exMulti exMulti 0 0 (3/10) (7/10) (7/10) rfl
  exact ⟨h.1, h.2 rfl rfl (by decide) (by decide)⟩

/-- Counterexample to C3 as stated: for a single-hunk patch without in-hunk
file headers, the fast path returns 1.0 but the feature scorer would return
0.7, so the two do not agree; and the Fedora–Debian matcher places this
byte-identical (hence fingerprint-equal) pair in `similar`, not `common`. -/
theorem claim_C3_counter :
    compare_patches exNoHead exNoHead 0 0 (3/10) (7/10) (7/10) = (1, true) ∧
    patch_similarity (extract_patch_features (normalize_patch_content exNoHead) 0)
      (extract_patch_features (normalize_patch_content exNoHead) 0) (3/10) (7/10) = 7/10 ∧
    ((7 : ℚ)/10) ≠ 1 ∧
    (compare_fedora_debian_patches mlenEq ["f"] ["d"] exC3fC exC3dC).matched = [] ∧
    (compare_fedora_debian_patches mlenEq ["f"] ["d"] exC3fC exC3dC).similar =
      [("f", "d", 9/10)] := by
  with_unfolding_all decide

/-! ### Lemmas about the Fedora-Debian matcher -/

lemma funcBestUpd_mem (acc : List (String × String × ℚ)) (e a : String × String × ℚ)
    (ha : a ∈ funcBestUpd acc e) : a ∈ acc ∨ a = e := by
  unfold funcBestUpd at ha
  split at ha
  · rcases List.mem_append.mp ha with h | h
    · exact Or.inl h
    · exact Or.inr (by simpa using h)
  · split at ha
    · rcases List.mem_map.mp ha with ⟨x, hx, hxe⟩
      by_cases hk : x.1 = e.1
      · rw [if_pos hk] at hxe
        exact Or.inr hxe.symm
      · rw [if_neg hk] at hxe
        exact Or.inl (hxe ▸ hx)
    · exact Or.inl ha

lemma funcBestGo_mem : ∀ (l acc : List (String × String × ℚ)) (a : String × String × ℚ),
    a ∈ funcBestGo acc l → a ∈ acc ∨ a ∈ l := by
  intro l
  induction l with
  | nil => intro acc a ha; exact Or.inl ha
  | cons e rest ih =>
    intro acc a ha
    rcases ih (funcBestUpd acc e) a ha with h | h
    · rcases funcBestUpd_mem acc e a h with h1 | h1
      · exact Or.inl h1
      · exact Or.inr (by simp [h1])
    · exact Or.inr (List.mem_cons_of_mem _ h)

lemma funcBest_mem (l : List (String × String × ℚ)) (a : String × String × ℚ)
    (ha : a ∈ funcBest l) : a ∈ l := by
  rcases funcBestGo_mem l [] a ha with h | h
  · simp at h
  · exact h

lemma debPairStep_mem_matched (mlen : String → String → Nat)
    (dC : String → Option (List String)) (f : String) (c : List String)
    (st : DebState) (d : String) (e : String × String × ℚ)
    (he : e ∈ (debPairStep mlen dC f c st d).matched) :
    e ∈ st.matched ∨
      (e.1 = f ∧ e.2.1 = d ∧ 3 ≤ c.length ∧
        ∃ dc, dC d = some dc ∧ 3 ≤ dc.length ∧ dc.length ≤ 10000) := by
  unfold debPairStep at he
  split at he
  · exact Or.inl he
  · split at he
    · exact Or.inl he
    · rename_i dc hdc
      split at he
      · exact Or.inl he
      · split at he
        · exact Or.inl he
        · split at he
          · exact Or.inl he
          · rename_i hd10000 hlen3
            dsimp only at he
            split at he
            · split at he
              · exact Or.inl he
              · dsimp only at he
                rcases List.mem_append.mp he with h | h
                · exact Or.inl h
                · have hee : e = (f, d, calculate_patch_similarity_improved mlen c dc) := by
                    simpa using h
                  refine Or.inr ⟨by rw [hee], by rw [hee], ?_, dc, hdc, ?_, ?_⟩
                  · exact Nat.le_of_not_lt (fun hc => hlen3 (Or.inl hc))
                  · exact Nat.le_of_not_lt (fun hc => hlen3 (Or.inr hc))
                  · exact Nat.le_of_not_lt hd10000
            · split at he
              · exact Or.inl he
              · exact Or.inl he

lemma debPairStep_mem_simrec (mlen : String → String → Nat)
    (dC : String → Option (List String)) (f : String) (c : List String)
    (st : DebState) (d : String) (e : String × String × ℚ)
    (he : e ∈ (debPairStep mlen dC f c st d).simrec) :
    e ∈ st.simrec ∨
      (e.1 = f ∧ e.2.1 = d ∧ 3 ≤ c.length ∧
        ∃ dc, dC d = some dc ∧ 3 ≤ dc.length ∧ dc.length ≤ 10000) := by
  unfold debPairStep at he
  split at he
  · exact Or.inl he
  · split at he
    · exact Or.inl he
    · rename_i dc hdc
      split at he
      · exact Or.inl he
      · split at he
        · exact Or.inl he
        · split at he
          · exact Or.inl he
          · rename_i hd10000 hlen3
            dsimp only at he
            split at he
            · split at he
              · exact Or.inl he
              · exact Or.inl he
            · split at he
              · dsimp only at he
                rcases List.mem_append.mp he with h | h
                · exact Or.inl h
                · have hee : e = (f, d, round2 (calculate_patch_similarity_improved mlen c dc)) := by
                    simpa using h
                  refine Or.inr ⟨by rw [hee], by rw [hee], ?_, dc, hdc, ?_, ?_⟩
                  · exact Nat.le_of_not_lt (fun hc => hlen3 (Or.inl hc))
                  · exact Nat.le_of_not_lt (fun hc => hlen3 (Or.inr hc))
                  · exact Nat.le_of_not_lt hd10000
              · exact Or.inl he

lemma debInner_mem (mlen : String → String → Nat)
    (dC : String → Option (List String)) (f : String) (c : List String) :
    ∀ (debs : List String) (st : DebState) (e : String × String × ℚ),
      (e ∈ (debInner mlen dC f c st debs).matched →
        e ∈ st.matched ∨ (e.1 = f ∧ e.2.1 ∈ debs ∧ 3 ≤ c.length ∧
          ∃ dc, dC e.2.1 = some dc ∧ 3 ≤ dc.length ∧ dc.length ≤ 10000)) ∧
      (e ∈ (debInner mlen dC f c st debs).simrec →
        e ∈ st.simrec ∨ (e.1 = f ∧ e.2.1 ∈ debs ∧ 3 ≤ c.length ∧
          ∃ dc, dC e.2.1 = some dc ∧ 3 ≤ dc.length ∧ dc.length ≤ 10000)) := by
  intro debs
  induction debs with
  | nil => intro st e; exact ⟨fun h => Or.inl h, fun h => Or.inl h⟩
  | cons d rest ih =>
    intro st e
    constructor
    · intro he
      rcases (ih (debPairStep mlen dC f c st d) e).1 he with h | h
      · rcases debPairStep_mem_matched mlen dC f c st d e h with h1 | h1
        · exact Or.inl h1
        · exact Or.inr ⟨h1.1, by rw [h1.2.1]; simp, h1.2.2.1, h1.2.1 ▸ h1.2.2.2⟩
      · exact Or.inr ⟨h.1, List.mem_cons_of_mem _ h.2.1, h.2.2⟩
    · intro he
      rcases (ih (debPairStep mlen dC f c st d) e).2 he with h | h
      · rcases debPairStep_mem_simrec mlen dC f c st d e h with h1 | h1
        · exact Or.inl h1
        · exact Or.inr ⟨h1.1, by rw [h1.2.1]; simp, h1.2.2.1, h1.2.1 ▸ h1.2.2.2⟩
      · exact Or.inr ⟨h.1, List.mem_cons_of_mem _ h.2.1, h.2.2⟩

lemma debOuter_mem (mlen : String → String → Nat)
    (fC dC : String → Option (List String)) (debs : List String) :
    ∀ (feds : List String) (st : DebState) (e : String × String × ℚ),
      (e ∈ (debOuter mlen fC dC debs st feds).matched →
        e ∈ st.matched ∨ (e.1 ∈ feds ∧
          (∃ cf, fC e.1 = some cf ∧ 3 ≤ cf.length ∧ cf.length ≤ 10000) ∧
          e.2.1 ∈ debs ∧
          ∃ dc, dC e.2.1 = some dc ∧ 3 ≤ dc.length ∧ dc.length ≤ 10000)) ∧
      (e ∈ (debOuter mlen fC dC debs st feds).simrec →
        e ∈ st.simrec ∨ (e.1 ∈ feds ∧
          (∃ cf, fC e.1 = some cf ∧ 3 ≤ cf.length ∧ cf.length ≤ 10000) ∧
          e.2.1 ∈ debs ∧
          ∃ dc, dC e.2.1 = some dc ∧ 3 ≤ dc.length ∧ dc.length ≤ 10000)) := by
  intro feds
  induction feds with
  | nil => intro st e; exact ⟨fun h => Or.inl h, fun h => Or.inl h⟩
  | cons g rest ih =>
    intro st e
    have key : ∀ st1 : DebState,
        (st1 = match fC g with
          | none => st
          | some c =>
            if c = [] then st
            else if 10000 < c.length then st
            else debInner mlen dC g c st debs) →
        (e ∈ st1.matched → e ∈ st.matched ∨ (e.1 = g ∧
            (∃ cf, fC e.1 = some cf ∧ 3 ≤ cf.length ∧ cf.length ≤ 10000) ∧
            e.2.1 ∈ debs ∧
            ∃ dc, dC e.2.1 = some dc ∧ 3 ≤ dc.length ∧ dc.length ≤ 10000)) ∧
        (e ∈ st1.simrec → e ∈ st.simrec ∨ (e.1 = g ∧
            (∃ cf, fC e.1 = some cf ∧ 3 ≤ cf.length ∧ cf.length ≤ 10000) ∧
            e.2.1 ∈ debs ∧
            ∃ dc, dC e.2.1 = some dc ∧ 3 ≤ dc.length ∧ dc.length ≤ 10000)) := by
      intro st1 hst1
      cases hfc : fC g with
      | none =>
        rw [hfc] at hst1
        subst hst1
        exact ⟨fun h => Or.inl h, fun h => Or.inl h⟩
      | some c =>
        rw [hfc] at hst1
        dsimp only at hst1
        by_cases hce : c = []
        · rw [if_pos hce] at hst1
          subst hst1
          exact ⟨fun h => Or.inl h, fun h => Or.inl h⟩
        · rw [if_neg hce] at hst1
          by_cases hc10 : 10000 < c.length
          · rw [if_pos hc10] at hst1
            subst hst1
            exact ⟨fun h => Or.inl h, fun h => Or.inl h⟩
          · rw [if_neg hc10] at hst1
            subst hst1
            constructor
            · intro h
              rcases (debInner_mem mlen dC g c debs st e).1 h with h1 | h1
              · exact Or.inl h1
              · refine Or.inr ⟨h1.1, ⟨c, by rw [h1.1, hfc], h1.2.2.1, Nat.le_of_not_lt hc10⟩,
                  h1.2.1, h1.2.2.2⟩
            · intro h
              rcases (debInner_mem mlen dC g c debs st e).2 h with h1 | h1
              · exact Or.inl h1
              · refine Or.inr ⟨h1.1, ⟨c, by rw [h1.1, hfc], h1.2.2.1, Nat.le_of_not_lt hc10⟩,
                  h1.2.1, h1.2.2.2⟩
    constructor
    · intro he
      rw [debOuter] at he
      rcases (ih _ e).1 he with h | h
      · rcases (key _ rfl).1 h with h1 | h1
        · exact Or.inl h1
        · exact Or.inr ⟨h1.1 ▸ List.mem_cons_self g rest, h1.2⟩
      · exact Or.inr ⟨List.mem_cons_of_mem _ h.1, h.2⟩
    · intro he
      rw [debOuter] at he
      rcases (ih _ e).2 he with h | h
      · rcases (key _ rfl).2 h with h1 | h1
        · exact Or.inl h1
        · exact Or.inr ⟨h1.1 ▸ List.mem_cons_self g rest, h1.2⟩
      · exact Or.inr ⟨List.mem_cons_of_mem _ h.1, h.2⟩

/-! ### Claim C1 -/

/-- Claim C1 (amended): after the Fedora-Debian matcher finishes, every input
patch name from the fedora side appears in at least one of the `matched`
(common) pairs, the `similar` pairs or `unmatched_fedora`, and symmetrically
every debian name appears in at least one of its three outputs — no name is
dropped.  (The "exactly one" half of the claim fails: a name can appear in
two outputs at once, see the counterexample.) -/
theorem claim_C1 (mlen : String → String → Nat) (feds debs : List String)
    (fC dC : String → Option (List String)) (f d : String)
    (hf : f ∈ feds) (hd : d ∈ debs) (r : DebResult)
    (hr : r = compare_fedora_debian_patches mlen feds debs fC dC) :
    (f ∈ r.matched.map (fun e => e.1) ∨ f ∈ r.similar.map (fun e => e.1) ∨
      f ∈ r.unmatchedF) ∧
    (d ∈ r.matched.map (fun e => e.2.1) ∨ d ∈ r.similar.map (fun e => e.2.1) ∨
      d ∈ r.unmatchedD) := by
  subst hr
  unfold compare_fedora_debian_patches
  split
  · rename_i hdeb
    rw [hdeb] at hd
    exact absurd hd (List.not_mem_nil d)
  · dsimp only
    constructor
    · by_cases h1 : f ∈ (debOuter mlen fC dC debs debInit feds).matched.map (fun e => e.1)
      · exact Or.inl h1
      · by_cases h2 : f ∈ (funcBest (debOuter mlen fC dC debs debInit feds).simrec).map
            (fun e => e.1)
        · exact Or.inr (Or.inl h2)
        · refine Or.inr (Or.inr (List.mem_filter.mpr ⟨hf, ?_⟩))
          simp only [decide_eq_true_eq]
          exact ⟨h1, h2⟩
    · by_cases h1 : d ∈ (debOuter mlen fC dC debs debInit feds).matched.map (fun e => e.2.1)
      · exact Or.inl h1
      · by_cases h2 : d ∈ (funcBest (debOuter mlen fC dC debs debInit feds).simrec).map
            (fun e => e.2.1)
        · exact Or.inr (Or.inl h2)
        · refine Or.inr (Or.inr (List.mem_filter.mpr ⟨hd, ?_⟩))
          simp only [decide_eq_true_eq]
          exact ⟨h1, h2⟩

/-- Witness for C1 at a concrete run. -/
theorem claim_C1_witness :
    ("f" ∈ (compare_fedora_debian_patches mlenEq ["f"] ["d1", "d2"] exC1fC exC1dC).matched.map
        (fun e => e.1) ∨
      "f" ∈ (compare_fedora_debian_patches mlenEq ["f"] ["d1", "d2"] exC1fC exC1dC).similar.map
        (fun e => e.1) ∨
      "f" ∈ (compare_fedora_debian_patches mlenEq ["f"] ["d1", "d2"] exC1fC exC1dC).unmatchedF) ∧
    ("d1" ∈ (compare_fedora_debian_patches mlenEq ["f"] ["d1", "d2"] exC1fC exC1dC).matched.map
        (fun e => e.2.1) ∨
      "d1" ∈ (compare_fedora_debian_patches mlenEq ["f"] ["d1", "d2"] exC1fC exC1dC).similar.map
        (fun e => e.2.1) ∨
      "d1" ∈ (compare_fedora_debian_patches mlenEq ["f"] ["d1", "d2"] exC1fC exC1dC).unmatchedD) :=
  claim_C1 mlenEq ["f"] ["d1", "d2"] exC1fC exC1dC "f" "d1" (by decide) (by decide) _ rfl

/-- Counterexample to C1 as stated: the fedora patch `f` matches `d1` exactly
(score 1.0, recorded in `matched`) and also scores 0.55 against `d2`, which is
recorded in `similar` — so `f` appears in two of the three outputs at once,
refuting "every name appears in exactly one". -/
theorem claim_C1_counter :
    "f" ∈ (compare_fedora_debian_patches mlenEq ["f"] ["d1", "d2"] exC1fC exC1dC).matched.map
      (fun e => e.1) ∧
    "f" ∈ (compare_fedora_debian_patches mlenEq ["f"] ["d1", "d2"] exC1fC exC1dC).similar.map
      (fun e => e.1) := by
  with_unfolding_all decide

/-! ### Claim C9 -/

/-- Claim C9: a patch whose retrieved content has more than 10000 lines or
fewer than 3 lines is silently excluded from all similarity comparisons — it
never appears in `matched` or `similar`, and (its name being listed) it always
ends up in its side's unique list.  Both sides are covered. -/
theorem claim_C9 (mlen : String → String → Nat) (feds debs : List String)
    (fC dC : String → Option (List String)) (f d : String) (cf cd : List String)
    (r : DebResult) (hr : r = compare_fedora_debian_patches mlen feds debs fC dC) :
    (f ∈ feds → fC f = some cf → (10000 < cf.length ∨ cf.length < 3) →
      f ∉ r.matched.map (fun e => e.1) ∧ f ∉ r.similar.map (fun e => e.1) ∧
        f ∈ r.unmatchedF) ∧
    (d ∈ debs → dC d = some cd → (10000 < cd.length ∨ cd.length < 3) →
      d ∉ r.matched.map (fun e => e.2.1) ∧ d ∉ r.similar.map (fun e => e.2.1) ∧
        d ∈ r.unmatchedD) := by
  subst hr
  unfold compare_fedora_debian_patches
  split
  · rename_i hdeb
    constructor
    · intro hf _ _
      refine ⟨by simp, by simp, hf⟩
    · intro hd _ _
      rw [hdeb] at hd
      exact absurd hd (List.not_mem_nil d)
  · dsimp only
    have hbase : ∀ e : String × String × ℚ, e ∈ debInit.matched → False := by
      intro e he; simp [debInit] at he
    have hbase2 : ∀ e : String × String × ℚ, e ∈ debInit.simrec → False := by
      intro e he; simp [debInit] at he
    constructor
    · intro hf hcf hbad
      have hm : f ∉ (debOuter mlen fC dC debs debInit feds).matched.map (fun e => e.1) := by
        intro hmem
        rcases List.mem_map.mp hmem with ⟨e, he, hef⟩
        rcases (debOuter_mem mlen fC dC debs feds debInit e).1 he with h | h
        · exact hbase e h
        · rcases h.2.1 with ⟨cf2, hcf2, h3, h10⟩
          rw [hef, hcf] at hcf2
          cases Option.some.inj hcf2
          rcases hbad with hb | hb
          · exact absurd h10 (Nat.not_le_of_lt hb)
          · exact absurd h3 (Nat.not_le_of_lt hb)
      have hs : f ∉ (funcBest (debOuter mlen fC dC debs debInit feds).simrec).map
          (fun e => e.1) := by
        intro hmem
        rcases List.mem_map.mp hmem with ⟨e, he, hef⟩
        have he2 := funcBest_mem _ e he
        rcases (debOuter_mem mlen fC dC debs feds debInit e).2 he2 with h | h
        · exact hbase2 e h
        · rcases h.2.1 with ⟨cf2, hcf2, h3, h10⟩
          rw [hef, hcf] at hcf2
          cases Option.some.inj hcf2
          rcases hbad with hb | hb
          · exact absurd h10 (Nat.not_le_of_lt hb)
          · exact absurd h3 (Nat.not_le_of_lt hb)
      refine ⟨hm, hs, List.mem_filter.mpr ⟨hf, ?_⟩⟩
      simp only [decide_eq_true_eq]
      exact ⟨hm, hs⟩
    · intro hd hcd hbad
      have hm : d ∉ (debOuter mlen fC dC debs debInit feds).matched.map (fun e => e.2.1) := by
        intro hmem
        rcases List.mem_map.mp hmem with ⟨e, he, hef⟩
        rcases (debOuter_mem mlen fC dC debs feds debInit e).1 he with h | h
        · exact hbase e h
        · rcases h.2.2.2 with ⟨dc2, hdc2, h3, h10⟩
          rw [hef, hcd] at hdc2
          cases Option.some.inj hdc2
          rcases hbad with hb | hb
          · exact absurd h10 (Nat.not_le_of_lt hb)
          · exact absurd h3 (Nat.not_le_of_lt hb)
      have hs : d ∉ (funcBest (debOuter mlen fC dC debs debInit feds).simrec).map
          (fun e => e.2.1) := by
        intro hmem
        rcases List.mem_map.mp hmem with ⟨e, he, hef⟩
        have he2 := funcBest_mem _ e he
        rcases (debOuter_mem mlen fC dC debs feds debInit e).2 he2 with h | h
        · exact hbase2 e h
        · rcases h.2.2.2 with ⟨dc2, hdc2, h3, h10⟩
          rw [hef, hcd] at hdc2
          cases Option.some.inj hdc2
          rcases hbad with hb | hb
          · exact absurd h10 (Nat.not_le_of_lt hb)
          · exact absurd h3 (Nat.not_le_of_lt hb)
      refine ⟨hm, hs, List.mem_filter.mpr ⟨hd, ?_⟩⟩
      simp only [decide_eq_true_eq]
      exact ⟨hm, hs⟩

/-- Witness for C9: `g` (one-line fedora content) and `e` (one-line debian
content) are excluded from all pairs and land in the unique lists of a
concrete run where `f` and `d` do match. -/
theorem claim_C9_witness :
    ("g" ∉ (compare_fedora_debian_patches mlenEq ["g", "f"] ["d", "e"] exC9fC exC9dC).matched.map
        (fun e => e.1) ∧
      "g" ∉ (compare_fedora_debian_patches mlenEq ["g", "f"] ["d", "e"] exC9fC exC9dC).similar.map
        (fun e => e.1) ∧
      "g" ∈ (compare_fedora_debian_patches mlenEq ["g", "f"] ["d", "e"] exC9fC exC9dC).unmatchedF) ∧
    ("e" ∉ (compare_fedora_debian_patches mlenEq ["g", "f"] ["d", "e"] exC9fC exC9dC).matched.map
        (fun e => e.2.1) ∧
      "e" ∉ (compare_fedora_debian_patches mlenEq ["g", "f"] ["d", "e"] exC9fC exC9dC).similar.map
        (fun e => e.2.1) ∧
      "e" ∈ (compare_fedora_debian_patches mlenEq ["g", "f"] ["d", "e"] exC9fC exC9dC).unmatchedD) := by
  have h := claim_C9 mlenEq ["g", "f"] ["d", "e"] exC9fC exC9dC "g" "e" ["+x"] ["+y"] _ rfl
  exact ⟨h.1 (by decide) (by with_unfolding_all decide) (by decide),
    h.2 (by decide) (by with_unfolding_all decide) (by decide)⟩

/-! ### Claim C6 -/

lemma funcBestUpd_inv (acc pre : List (String × String × ℚ)) (e : String × String × ℚ)
    (h1 : (acc.map (fun x => x.1)).Nodup)
    (h2 : ∀ a ∈ acc, a ∈ pre)
    (h3 : ∀ a ∈ acc, ∀ p ∈ pre, p.1 = a.1 → p.2.2 ≤ a.2.2)
    (h4 : ∀ p ∈ pre, p.1 ∈ acc.map (fun x => x.1)) :
    ((funcBestUpd acc e).map (fun x => x.1)).Nodup ∧
    (∀ a ∈ funcBestUpd acc e, a ∈ pre ++ [e]) ∧
    (∀ a ∈ funcBestUpd acc e, ∀ p ∈ pre ++ [e], p.1 = a.1 → p.2.2 ≤ a.2.2) ∧
    (∀ p ∈ pre ++ [e], p.1 ∈ (funcBestUpd acc e).map (fun x => x.1)) := by
  unfold funcBestUpd
  cases hfind : acc.find? (fun x => x.1 == e.1) with
  | none =>
    dsimp only
    have hnone : ∀ x ∈ acc, x.1 ≠ e.1 := by
      intro x hx
      have := List.find?_eq_none.mp hfind x hx
      simpa using this
    refine ⟨?_, ?_, ?_, ?_⟩
    · rw [List.map_append, List.nodup_append]
      refine ⟨h1, by simp, ?_⟩
      intro a ha hb
      simp only [List.map_cons, List.map_nil, List.mem_singleton] at hb
      rcases List.mem_map.mp ha with ⟨x, hx, hxa⟩
      exact hnone x hx (by rw [hxa, hb])
    · intro a ha
      rcases List.mem_append.mp ha with h | h
      · exact List.mem_append_left _ (h2 a h)
      · exact List.mem_append_right _ h
    · intro a ha p hp hpe
      rcases List.mem_append.mp ha with h | h
      · rcases List.mem_append.mp hp with hq | hq
        · exact h3 a h p hq hpe
        · have hpe2 : p = e := by simpa using hq
          exact absurd (hpe2 ▸ hpe).symm (hnone a h)
      · have hae : a = e := by simpa using h
        rcases List.mem_append.mp hp with hq | hq
        · have := h4 p hq
          rcases List.mem_map.mp this with ⟨x, hx, hxp⟩
          exact absurd (by rw [hxp, hpe, hae]) (hnone x hx)
        · have hpe2 : p = e := by simpa using hq
          rw [hpe2, hae]
    · intro p hp
      rw [List.map_append]
      rcases List.mem_append.mp hp with h | h
      · exact List.mem_append_left _ (h4 p h)
      · have hpe2 : p = e := by simpa using h
        apply List.mem_append_right
        simp [hpe2]
  | some old =>
    dsimp only
    have hold : old ∈ acc := List.mem_of_find?_eq_some hfind
    have holdk : old.1 = e.1 := by
      have := List.find?_some hfind
      simpa using this
    have huniq : ∀ a ∈ acc, a.1 = e.1 → a = old := by
      intro a ha hak
      exact List.inj_on_of_nodup_map h1 ha hold (by rw [hak, holdk])
    split
    · rename_i hlt
      have hkeys : ((acc.map (fun x => if x.1 = e.1 then e else x)).map (fun x => x.1)) =
          acc.map (fun x => x.1) := by
        rw [List.map_map]
        apply List.map_congr_left
        intro x _
        by_cases hk : x.1 = e.1
        · simp [hk]
        · simp [hk]
      refine ⟨by rw [hkeys]; exact h1, ?_, ?_, ?_⟩
      · intro a ha
        rcases List.mem_map.mp ha with ⟨x, hx, hxa⟩
        by_cases hk : x.1 = e.1
        · rw [if_pos hk] at hxa
          exact List.mem_append_right _ (by simp [hxa.symm])
        · rw [if_neg hk] at hxa
          exact List.mem_append_left _ (hxa ▸ h2 x hx)
      · intro a ha p hp hpe
        rcases List.mem_map.mp ha with ⟨x, hx, hxa⟩
        by_cases hk : x.1 = e.1
        · rw [if_pos hk] at hxa
          subst hxa
          rcases List.mem_append.mp hp with hq | hq
          · have := h3 old hold p hq (by rw [hpe, holdk])
            exact le_of_lt (lt_of_le_of_lt this hlt)
          · have hpe2 : p = e := by simpa using hq
            rw [hpe2]
        · rw [if_neg hk] at hxa
          subst hxa
          rcases List.mem_append.mp hp with hq | hq
          · exact h3 x hx p hq hpe
          · have hpe2 : p = e := by simpa using hq
            exact absurd (by rw [← hpe, hpe2]) hk
      · intro p hp
        rw [hkeys]
        rcases List.mem_append.mp hp with h | h
        · exact h4 p h
        · have hpe2 : p = e := by simpa using h
          rw [hpe2]
          rw [← holdk]
          exact List.mem_map.mpr ⟨old, hold, rfl⟩
    · rename_i hnlt
      refine ⟨h1, ?_, ?_, ?_⟩
      · intro a ha
        exact List.mem_append_left _ (h2 a ha)
      · intro a ha p hp hpe
        rcases List.mem_append.mp hp with hq | hq
        · exact h3 a ha p hq hpe
        · have hpe2 : p = e := by simpa using hq
          have hae : a = old := huniq a ha (by rw [← hpe, hpe2])
          rw [hpe2, hae]
          exact le_of_not_lt hnlt
      · intro p hp
        rcases List.mem_append.mp hp with h | h
        · exact h4 p h
        · have hpe2 : p = e := by simpa using h
          rw [hpe2, ← holdk]
          exact List.mem_map.mpr ⟨old, hold, rfl⟩

lemma funcBestGo_spec : ∀ (l acc pre : List (String × String × ℚ)),
    (acc.map (fun x => x.1)).Nodup →
    (∀ a ∈ acc, a ∈ pre) →
    (∀ a ∈ acc, ∀ p ∈ pre, p.1 = a.1 → p.2.2 ≤ a.2.2) →
    (∀ p ∈ pre, p.1 ∈ acc.map (fun x => x.1)) →
    ((funcBestGo acc l).map (fun x => x.1)).Nodup ∧
    (∀ a ∈ funcBestGo acc l, a ∈ pre ++ l) ∧
    (∀ a ∈ funcBestGo acc l, ∀ p ∈ pre ++ l, p.1 = a.1 → p.2.2 ≤ a.2.2) ∧
    (∀ p ∈ pre ++ l, p.1 ∈ (funcBestGo acc l).map (fun x => x.1)) := by
  intro l
  induction l with
  | nil =>
    intro acc pre h1 h2 h3 h4
    rw [List.append_nil]
    exact ⟨h1, h2, h3, h4⟩
  | cons e rest ih =>
    intro acc pre h1 h2 h3 h4
    have hu := funcBestUpd_inv acc pre e h1 h2 h3 h4
    have hres := ih (funcBestUpd acc e) (pre ++ [e]) hu.1 hu.2.1 hu.2.2.1 hu.2.2.2
    rw [show pre ++ [e] ++ rest = pre ++ e :: rest by simp] at hres
    exact hres

lemma debInner_nil (mlen : String → String → Nat) (dC : String → Option (List String))
    (f : String) (c : List String) (st : DebState) : debInner mlen dC f c st [] = st := rfl

lemma debOuter_nil_debs (mlen : String → String → Nat)
    (fC dC : String → Option (List String)) :
    ∀ (feds : List String) (st : DebState), debOuter mlen fC dC [] st feds = st := by
  intro feds
  induction feds with
  | nil => intro st; rfl
  | cons g rest ih =>
    intro st
    rw [debOuter]
    cases hfc : fC g with
    | none => exact ih st
    | some c =>
      dsimp only
      split
      · exact ih st
      · split
        · exact ih st
        · rw [debInner_nil]
          exact ih st

/-- Claim C6 (amended): the Fedora-Debian matcher has no per-threshold rounds
and removes nothing from consideration; it records every pair scoring at or
above 0.5 and the final dedup keeps, per fedora patch, the recorded pair with
the strictly highest two-decimal-rounded score (first recorded wins ties).
Hence in the final `similar` list each fedora name appears at most once, each
kept pair is one of the recorded pairs and dominates every recorded candidate
for the same fedora name, and every recorded fedora name survives into the
final list.  (Matched patches are not removed: the same debian patch can be
paired with several fedora patches, see the counterexample.) -/
theorem claim_C6 (mlen : String → String → Nat) (feds debs : List String)
    (fC dC : String → Option (List String)) (r : DebResult) (st : DebState)
    (hr : r = compare_fedora_debian_patches mlen feds debs fC dC)
    (hst : st = debOuter mlen fC dC debs debInit feds) :
    (r.similar.map (fun x => x.1)).Nodup ∧
    (∀ a ∈ r.similar, a ∈ st.simrec) ∧
    (∀ a ∈ r.similar, ∀ p ∈ st.simrec, p.1 = a.1 → p.2.2 ≤ a.2.2) ∧
    (∀ p ∈ st.simrec, p.1 ∈ r.similar.map (fun x => x.1)) := by
  subst hr hst
  unfold compare_fedora_debian_patches
  split
  · rename_i hdeb
    subst hdeb
    rw [debOuter_nil_debs]
    exact ⟨by simp, by simp, by simp, by simp [debInit]⟩
  · dsimp only
    have h := funcBestGo_spec (debOuter mlen fC dC debs debInit feds).simrec [] []
      (by simp) (by simp) (by simp) (by simp)
    simpa [funcBest] using h

/-- Witness for C6 at a concrete run with two fedora variants of one debian
patch. -/
theorem claim_C6_witness :
    ((compare_fedora_debian_patches mlenEq ["f1", "f2"] ["d"] exC6fC exC6dC).similar.map
      (fun x => x.1)).Nodup ∧
    (∀ a ∈ (compare_fedora_debian_patches mlenEq ["f1", "f2"] ["d"] exC6fC exC6dC).similar,
      a ∈ (debOuter mlenEq exC6fC exC6dC ["d"] debInit ["f1", "f2"]).simrec) ∧
    (∀ a ∈ (compare_fedora_debian_patches mlenEq ["f1", "f2"] ["d"] exC6fC exC6dC).similar,
      ∀ p ∈ (debOuter mlenEq exC6fC exC6dC ["d"] debInit ["f1", "f2"]).simrec,
        p.1 = a.1 → p.2.2 ≤ a.2.2) ∧
    (∀ p ∈ (debOuter mlenEq exC6fC exC6dC ["d"] debInit ["f1", "f2"]).simrec,
      p.1 ∈ (compare_fedora_debian_patches mlenEq ["f1", "f2"] ["d"] exC6fC exC6dC).similar.map
        (fun x => x.1)) :=
  claim_C6 mlenEq ["f1", "f2"] ["d"] exC6fC exC6dC _ _ rfl rfl

/-- Counterexample to C6 as stated: the debian patch `d` is recorded as the
similar partner of both `f1` and `f2` — nothing is removed from the remaining
sets after a hit, so a matched patch can be matched again. -/
theorem claim_C6_counter :
    (compare_fedora_debian_patches mlenEq ["f1", "f2"] ["d"] exC6fC exC6dC).similar =
      [("f1", "d", 11/20), ("f2", "d", 11/20)] ∧
    ¬ ((compare_fedora_debian_patches mlenEq ["f1", "f2"] ["d"] exC6fC exC6dC).similar.map
      (fun x => x.2.1)).Nodup := by
  with_unfolding_all decide

/-! ### Claim C7 -/

lemma matchRound_src_coverage (th : ℚ) (sd td : String → List String) :
    ∀ (src tgt : List String), ∀ s ∈ src,
      s ∈ (matchRound th sd td src tgt).1.map (fun e => e.1) ∨
      s ∈ (matchRound th sd td src tgt).2.1 := by
  intro src
  induction src with
  | nil => intro tgt s hs; simp at hs
  | cons x rest ih =>
    intro tgt s hs
    unfold matchRound
    cases hscan : scanTgt th (sd x) td tgt with
    | some p =>
      obtain ⟨t0, sim0⟩ := p
      dsimp only
      rcases List.mem_cons.mp hs with h | h
      · subst h
        left
        simp
      · rcases ih (tgt.erase t0) s h with h1 | h1
        · left
          rcases List.mem_map.mp h1 with ⟨e, he, hes⟩
          exact List.mem_map.mpr ⟨e, List.mem_cons_of_mem _ he, hes⟩
        · right
          exact h1
    | none =>
      dsimp only
      rcases List.mem_cons.mp hs with h | h
      · subst h
        right
        simp
      · rcases ih tgt s h with h1 | h1
        · left
          exact h1
        · right
          exact List.mem_cons_of_mem _ h1

lemma matchRound_tgt_coverage (th : ℚ) (sd td : String → List String) :
    ∀ (src tgt : List String), ∀ t ∈ tgt,
      t ∈ (matchRound th sd td src tgt).1.map (fun e => e.2.1) ∨
      t ∈ (matchRound th sd td src tgt).2.2 := by
  intro src
  induction src with
  | nil => intro tgt t ht; right; exact ht
  | cons x rest ih =>
    intro tgt t ht
    unfold matchRound
    cases hscan : scanTgt th (sd x) td tgt with
    | some p =>
      obtain ⟨t0, sim0⟩ := p
      dsimp only
      by_cases htt : t = t0
      · left
        simp [htt]
      · rcases ih (tgt.erase t0) t (List.mem_erase_of_ne htt |>.mpr ht) with h1 | h1
        · left
          rcases List.mem_map.mp h1 with ⟨e, he, het⟩
          exact List.mem_map.mpr ⟨e, List.mem_cons_of_mem _ he, het⟩
        · right
          exact h1
    | none =>
      dsimp only
      exact ih tgt t ht

/-- Claim C7 (amended): for fixed input lists (a fixed iteration order of the
Python sets) the round-based matcher is a deterministic function of the
contents — extensionally equal content maps give identical ComparisonResults
— and for every iteration order each input name is classified into `common`,
`similar` or its unique list.  (The result does depend on the iteration
order of the remaining sets, which Python string-keyed sets do not fix
across runs — see the counterexample.) -/
theorem claim_C7 (src tgt : List String) (sd td sd2 td2 : String → List String)
    (hsd : ∀ n, sd n = sd2 n) (htd : ∀ n, td n = td2 n) (s t : String)
    (hs : s ∈ src) (ht : t ∈ tgt) :
    matchPipeline src tgt sd td = matchPipeline src tgt sd2 td2 ∧
    (s ∈ (matchPipeline src tgt sd td).common.map (fun e => e.1) ∨
      s ∈ (matchPipeline src tgt sd td).similar.map (fun e => e.1) ∨
      s ∈ (matchPipeline src tgt sd td).uniqueSrc) ∧
    (t ∈ (matchPipeline src tgt sd td).common.map (fun e => e.2.1) ∨
      t ∈ (matchPipeline src tgt sd td).similar.map (fun e => e.2.1) ∨
      t ∈ (matchPipeline src tgt sd td).uniqueTgt) := by
  refine ⟨?_, ?_, ?_⟩
  · rw [funext hsd, funext htd]
  · unfold matchPipeline
    dsimp only
    rcases matchRound_src_coverage 1 sd td src tgt s hs with h1 | h1
    · exact Or.inl h1
    · rcases matchRound_src_coverage (4/5) sd td (matchRound 1 sd td src tgt).2.1
        (matchRound 1 sd td src tgt).2.2 s h1 with h2 | h2
      · exact Or.inr (Or.inl h2)
      · exact Or.inr (Or.inr h2)
  · unfold matchPipeline
    dsimp only
    rcases matchRound_tgt_coverage 1 sd td src tgt t ht with h1 | h1
    · exact Or.inl h1
    · rcases matchRound_tgt_coverage (4/5) sd td (matchRound 1 sd td src tgt).2.1
        (matchRound 1 sd td src tgt).2.2 t h1 with h2 | h2
      · exact Or.inr (Or.inl h2)
      · exact Or.inr (Or.inr h2)

/-- Witness for C7 at a concrete pipeline run. -/
theorem claim_C7_witness :
    matchPipeline ["f1", "f2"] ["t"] exC7sd exC7td =
      matchPipeline ["f1", "f2"] ["t"] exC7sd exC7td ∧
    ("f1" ∈ (matchPipeline ["f1", "f2"] ["t"] exC7sd exC7td).common.map (fun e => e.1) ∨
      "f1" ∈ (matchPipeline ["f1", "f2"] ["t"] exC7sd exC7td).similar.map (fun e => e.1) ∨
      "f1" ∈ (matchPipeline ["f1", "f2"] ["t"] exC7sd exC7td).uniqueSrc) ∧
    ("t" ∈ (matchPipeline ["f1", "f2"] ["t"] exC7sd exC7td).common.map (fun e => e.2.1) ∨
      "t" ∈ (matchPipeline ["f1", "f2"] ["t"] exC7sd exC7td).similar.map (fun e => e.2.1) ∨
      "t" ∈ (matchPipeline ["f1", "f2"] ["t"] exC7sd exC7td).uniqueTgt) :=
  claim_C7 ["f1", "f2"] ["t"] exC7sd exC7td exC7sd exC7td (fun _ => rfl) (fun _ => rfl)
    "f1" "t" (by decide) (by decide)

/-- Counterexample to C7 as stated: the two source orders are permutations of
the same two-element set, yet the matcher pairs `t` with `f1` in one order and
with `f2` in the other — the output depends on the set-iteration order. -/
theorem claim_C7_counter :
    List.Perm ["f1", "f2"] ["f2", "f1"] ∧
    matchPipeline ["f1", "f2"] ["t"] exC7sd exC7td ≠
      matchPipeline ["f2", "f1"] ["t"] exC7sd exC7td := by
  constructor
  · exact List.Perm.swap _ _ _
  · with_unfolding_all decide

/-! ### Claims C4 and C5 : the scorer against the spec formula -/

lemma jaccardQ_comm {α : Type} [DecidableEq α] (s t : Finset α) :
    jaccardQ s t = jaccardQ t s := by
  unfold jaccardQ
  rw [Finset.inter_comm, Finset.union_comm]

lemma guarded_jaccard_eq {α : Type} [DecidableEq α] (n1 n2 : Finset α) :
    (if n1 ≠ ∅ ∨ n2 ≠ ∅ then
      (if 0 < (n1 ∪ n2).card then ((n1 ∩ n2).card : ℚ) / ((n1 ∪ n2).card : ℚ) else 0)
    else 0) = jaccardQ n1 n2 := by
  unfold jaccardQ
  by_cases h : n1 ≠ ∅ ∨ n2 ≠ ∅
  · rw [if_pos h]
    by_cases hc : 0 < (n1 ∪ n2).card
    · rw [if_pos hc]
    · rw [if_neg hc]
      have hu : (n1 ∪ n2).card = 0 := Nat.eq_zero_of_not_pos hc
      have hi : (n1 ∩ n2).card = 0 := by
        have hsub := Finset.card_le_card (Finset.inter_subset_union (s := n1) (t := n2))
        omega
      rw [hi, hu]
      simp
  · rw [if_neg h]
    push_neg at h
    rw [h.1, h.2]
    simp

lemma deb_path_similarity_eq (p1 p2 : List String) :
    deb_path_similarity p1 p2 = jaccardQ (extract_fuzzy_paths p1) (extract_fuzzy_paths p2) := by
  unfold deb_path_similarity
  exact guarded_jaccard_eq _ _

lemma added_jaccard_eq (p1 p2 : List String) :
    added_jaccard p1 p2 = jaccardQ (added_ngrams_of p1) (added_ngrams_of p2) := by
  unfold added_jaccard
  exact guarded_jaccard_eq _ _

lemma removed_jaccard_eq (p1 p2 : List String) :
    removed_jaccard p1 p2 = jaccardQ (removed_ngrams_of p1) (removed_ngrams_of p2) := by
  unfold removed_jaccard
  exact guarded_jaccard_eq _ _

lemma code_similarity_eq (p1 p2 : List String) :
    code_similarity p1 p2 =
      (1/2) * jaccardQ (added_ngrams_of p1) (added_ngrams_of p2) +
      (1/2) * jaccardQ (removed_ngrams_of p1) (removed_ngrams_of p2) := by
  unfold code_similarity
  rw [added_jaccard_eq, removed_jaccard_eq]

lemma string_length_pos (s : String) (h : s ≠ "") : 0 < s.length := by
  cases s with
  | mk l =>
    cases l with
    | nil => exact absurd rfl h
    | cons c cs => simp [String.length]

lemma mlen_empty_left (mlen : String → String → Nat)
    (hM : ∀ a b, mlen a b ≤ min a.length b.length) (b : String) : mlen "" b = 0 :=
  Nat.le_zero.mp (le_trans (hM "" b) (by simp))

lemma mlen_empty_right (mlen : String → String → Nat)
    (hM : ∀ a b, mlen a b ≤ min a.length b.length) (a : String) : mlen a "" = 0 :=
  Nat.le_zero.mp (le_trans (hM a "") (by simp))

lemma norm_lines_mem_ne (l : List String) : ∀ x ∈ normalize_patch_lines l, x ≠ "" := by
  intro x hx
  unfold normalize_patch_lines at hx
  rcases List.mem_filterMap.mp hx with ⟨line, _, hline⟩
  dsimp only at hline
  split at hline
  · exact absurd hline (by simp)
  · split at hline
    · exact absurd hline (by simp)
    · rename_i ht _
      cases hline
      exact ht

lemma raw_sim_eq (mlen : String → String → Nat)
    (hM : ∀ a b, mlen a b ≤ min a.length b.length) (p1 p2 : List String) :
    (if normalize_patch_lines p1 ≠ [] ∧ normalize_patch_lines p2 ≠ [] then
      alignScore mlen (pyJoin "\n" (normalize_patch_lines p1))
        (pyJoin "\n" (normalize_patch_lines p2))
    else 0) =
    (2 * (mlen (pyJoin "\n" (normalize_patch_lines p1))
        (pyJoin "\n" (normalize_patch_lines p2)) : ℚ)) /
      (((pyJoin "\n" (normalize_patch_lines p1)).length : ℚ) +
        ((pyJoin "\n" (normalize_patch_lines p2)).length : ℚ)) := by
  by_cases h : normalize_patch_lines p1 ≠ [] ∧ normalize_patch_lines p2 ≠ []
  · rw [if_pos h]
    unfold alignScore
    have hj1 : pyJoin "\n" (normalize_patch_lines p1) ≠ "" :=
      pyJoin_ne_empty _ _ h.1 (norm_lines_mem_ne p1)
    have hlen : (pyJoin "\n" (normalize_patch_lines p1)).length +
        (pyJoin "\n" (normalize_patch_lines p2)).length ≠ 0 := by
      have := string_length_pos _ hj1
      omega
    rw [if_neg hlen]
  · rw [if_neg h]
    rcases not_and_or.mp h with h1 | h1
    · have hn : normalize_patch_lines p1 = [] := not_not.mp h1
      rw [hn, show pyJoin "\n" ([] : List String) = "" from rfl,
        mlen_empty_left mlen hM _]
      simp
    · have hn : normalize_patch_lines p2 = [] := not_not.mp h1
      rw [hn, show pyJoin "\n" ([] : List String) = "" from rfl,
        mlen_empty_right mlen hM _]
      simp

lemma jaccardQ_empty_left {α : Type} [DecidableEq α] (t : Finset α) :
    jaccardQ (∅ : Finset α) t = 0 := by
  unfold jaccardQ
  simp

lemma calc_eq_spec (mlen : String → String → Nat)
    (hM : ∀ a b, mlen a b ≤ min a.length b.length) (p1 p2 : List String) :
    calculate_patch_similarity_improved mlen p1 p2 = spec_similarity_formula mlen p1 p2 := by
  by_cases h0 : p1 = [] ∨ p2 = []
  · unfold calculate_patch_similarity_improved spec_similarity_formula
    rw [if_pos h0]
    dsimp only
    rcases h0 with h | h
    · subst h
      rw [show extract_fuzzy_paths ([] : List String) = ∅ from rfl,
        show added_ngrams_of ([] : List String) = ∅ from rfl,
        show removed_ngrams_of ([] : List String) = ∅ from rfl,
        jaccardQ_empty_left, jaccardQ_empty_left, jaccardQ_empty_left,
        show normalize_patch_lines ([] : List String) = [] from rfl,
        show pyJoin "\n" ([] : List String) = "" from rfl,
        mlen_empty_left mlen hM _]
      norm_num
    · subst h
      rw [show extract_fuzzy_paths ([] : List String) = ∅ from rfl,
        show added_ngrams_of ([] : List String) = ∅ from rfl,
        show removed_ngrams_of ([] : List String) = ∅ from rfl,
        jaccardQ_comm (extract_fuzzy_paths p1) ∅,
        jaccardQ_comm (added_ngrams_of p1) ∅,
        jaccardQ_comm (removed_ngrams_of p1) ∅,
        jaccardQ_empty_left, jaccardQ_empty_left, jaccardQ_empty_left,
        show normalize_patch_lines ([] : List String) = [] from rfl,
        show pyJoin "\n" ([] : List String) = "" from rfl,
        mlen_empty_right mlen hM _]
      norm_num
  · unfold calculate_patch_similarity_improved spec_similarity_formula
    rw [if_neg h0]
    dsimp only
    rw [deb_path_similarity_eq, code_similarity_eq, raw_sim_eq mlen hM p1 p2]

/-- Claim C4: for every pair of patch line sequences the similarity score of
`calculate_patch_similarity_improved` equals the spec formula
`0.1 * path_similarity + 0.9 * (0.5 * added_jaccard + 0.5 * removed_jaccard)`,
except that when `code_similarity < 0.5` and the raw sequence-alignment ratio
over the joined normalized texts exceeds 0.8, the final score is replaced by
`(final + raw) / 2`.  The oracle `mlen` models difflib's total matched size;
the hypothesis is the matching bound every real run satisfies. -/
theorem claim_C4 (mlen : String → String → Nat)
    (hM : ∀ a b, mlen a b ≤ min a.length b.length) (p1 p2 : List String) :
    calculate_patch_similarity_improved mlen p1 p2 = spec_similarity_formula mlen p1 p2 :=
  calc_eq_spec mlen hM p1 p2

lemma mlenEq_bound : ∀ a b, mlenEq a b ≤ min a.length b.length := by
  intro a b
  unfold mlenEq
  split
  · rename_i h
    subst h
    simp
  · simp

lemma mlenEq_comm : ∀ a b, mlenEq a b = mlenEq b a := by
  intro a b
  unfold mlenEq
  by_cases h : a = b
  · subst h
    rfl
  · rw [if_neg h, if_neg (fun hc => h hc.symm)]

/-- Witness for C4 at a concrete pair of patches. -/
theorem claim_C4_witness :
    calculate_patch_similarity_improved mlenEq exIdent exVarG =
      spec_similarity_formula mlenEq exIdent exVarG :=
  claim_C4 mlenEq mlenEq_bound exIdent exVarG

lemma spec_comm (mlen : String → String → Nat)
    (hsym : ∀ a b, mlen a b = mlen b a) (p1 p2 : List String) :
    spec_similarity_formula mlen p1 p2 = spec_similarity_formula mlen p2 p1 := by
  unfold spec_similarity_formula
  dsimp only
  rw [jaccardQ_comm (extract_fuzzy_paths p1) (extract_fuzzy_paths p2),
    jaccardQ_comm (added_ngrams_of p1) (added_ngrams_of p2),
    jaccardQ_comm (removed_ngrams_of p1) (removed_ngrams_of p2),
    hsym (pyJoin "\n" (normalize_patch_lines p1)) (pyJoin "\n" (normalize_patch_lines p2)),
    add_comm ((pyJoin "\n" (normalize_patch_lines p1)).length : ℚ)
      ((pyJoin "\n" (normalize_patch_lines p2)).length : ℚ)]

lemma spec_self (mlen : String → String → Nat) (p : List String)
    (h1 : extract_fuzzy_paths p ≠ ∅) (h2 : added_ngrams_of p ≠ ∅)
    (h3 : removed_ngrams_of p ≠ ∅) :
    spec_similarity_formula mlen p p = 1 := by
  unfold spec_similarity_formula
  dsimp only
  rw [jaccardQ_self _ h1, jaccardQ_self _ h2, jaccardQ_self _ h3]
  rw [if_neg (fun hc => absurd hc.1 (by norm_num))]
  norm_num

/-- Claim C5 (amended): the scorer is symmetric whenever the difflib oracle
is, and self-similarity is perfect — `score(P, P) = 1.0` — provided P's fuzzy
path set, added n-gram set and removed n-gram set are all nonempty.  (Without
file-header lines the self-score is only 0.9, see the counterexample.) -/
theorem claim_C5 (mlen : String → String → Nat)
    (hM : ∀ a b, mlen a b ≤ min a.length b.length)
    (hsym : ∀ a b, mlen a b = mlen b a) (P A B : List String)
    (h1 : extract_fuzzy_paths P ≠ ∅) (h2 : added_ngrams_of P ≠ ∅)
    (h3 : removed_ngrams_of P ≠ ∅) :
    calculate_patch_similarity_improved mlen P P = 1 ∧
    calculate_patch_similarity_improved mlen A B =
      calculate_patch_similarity_improved mlen B A := by
  constructor
  · rw [calc_eq_spec mlen hM]
    exact spec_self mlen P h1 h2 h3
  · rw [calc_eq_spec mlen hM, calc_eq_spec mlen hM]
    exact spec_comm mlen hsym A B

/-- Witness for C5: a well-formed patch has perfect self-similarity, and a
concrete pair scores symmetrically. -/
theorem claim_C5_witness :
    calculate_patch_similarity_improved mlenEq exIdent exIdent = 1 ∧
    calculate_patch_similarity_improved mlenEq exIdent exVarG =
      calculate_patch_similarity_improved mlenEq exVarG exIdent :=
  claim_C5 mlenEq mlenEq_bound mlenEq_comm exIdent exIdent exVarG
    (by with_unfolding_all decide) (by with_unfolding_all decide)
    (by with_unfolding_all decide)

/-- Counterexample to C5 as stated: a patch whose hunk carries no file-header
lines has an empty fuzzy path set, so its self-similarity is
`0.1 * 0 + 0.9 * 1 = 0.9`, not 1.0. -/
theorem claim_C5_counter :
    calculate_patch_similarity_improved mlenEq exNoHead exNoHead = 9/10 ∧
    ((9 : ℚ)/10) ≠ 1 := by
  constructor
  · with_unfolding_all decide
  · norm_num

end LDPatch
